import Mathlib

/-!
# image-check: structural validation of PNG, JPEG, GIF and SWF files

A shallow embedding of `check.go`.  A file is the list of its bytes together
with the path it was opened with (the path only shows up in the text of a
failed `Seek`).  A Go `error` result is modelled by `Result`; the `for` loops
of the walkers are modelled by `loop`, which runs a loop body a bounded number
of times over an explicit reader state.  Go's `int` is taken to be 64 bits
wide, so that none of the sizes computed by the walkers (at most `2^32 + 3`)
overflows and natural numbers model them exactly.
-/

namespace ImageCheck

/-- One byte of a file. -/
abbrev Byte := Fin 256

/-- An opened `*os.File`: the path it was opened with and its contents. -/
structure File where
  name : String
  data : List Byte

/-- The value returned by a function of type `error`: `nil`, an error with
its message, or `unfinished` when the bounded model of a loop used up its
iterations before the loop returned. -/
inductive Result where
  | nil
  | error (msg : String)
  | unfinished
deriving DecidableEq, Repr

/-- The outcome of a walker loop over a `bufio.Reader`: the loop returned
`nil` with the reader positioned before `rest`, it returned an error, or the
iteration budget ran out. -/
inductive Walk where
  | stop (rest : List Byte)
  | fail (msg : String)
  | unfinished
deriving DecidableEq, Repr

/-- What one iteration of a loop does: go round again in a new state, leave
the loop with the reader positioned before `rest`, or return an error. -/
inductive Step (σ : Type) where
  | next (s : σ)
  | stop (rest : List Byte)
  | fail (msg : String)
deriving DecidableEq

/-- The loop `for { body }`, run for at most `fuel` iterations. -/
def loop {σ : Type} (body : σ → Step σ) : Nat → σ → Walk
  | 0, _ => .unfinished
  | fuel + 1, s =>
    match body s with
    | .next s' => loop body fuel s'
    | .stop rest => .stop rest
    | .fail msg => .fail msg

/-- The error a walker returns, given how its loop ended. -/
def Walk.toResult : Walk → Result
  | .stop _ => .nil
  | .fail msg => .error msg
  | .unfinished => .unfinished

/-- Source `wrap(f, err)`: `nil` stays `nil`, an error gets the text of the
format `f` (given here without its final `%v`) put in front of its message. -/
def wrap (f : String) : Result → Result
  | .nil => .nil
  | .error msg => .error (f ++ msg)
  | .unfinished => .unfinished

/-! ## Reader primitives -/

/-- `bufio.Reader.ReadByte` on the remaining bytes. -/
def readByte : List Byte → Except String (Byte × List Byte)
  | [] => .error "EOF"
  | b :: rest => .ok (b, rest)

/-- `io.ReadFull` into a buffer of `n` bytes: `EOF` when nothing could be
read, `unexpected EOF` when only a part could. -/
def readFull (n : Nat) (r : List Byte) : Except String (List Byte × List Byte) :=
  if n ≤ r.length then .ok (r.take n, r.drop n)
  else if r.length = 0 then .error "EOF"
  else .error "unexpected EOF"

/-- `bufio.Reader.Discard(n)` for `n ≥ 0`: fails with `EOF` when fewer than
`n` bytes remain. -/
def discard (n : Nat) (r : List Byte) : Except String (List Byte) :=
  if n ≤ r.length then .ok (r.drop n) else .error "EOF"

/-- The reference point of a `Seek`. -/
inductive Whence where
  | seekStart
  | seekEnd

/-- `f.Seek(offset, whence)`: the new absolute position, or the error of a
seek to a negative position. -/
def File.seek (f : File) (offset : Int) : Whence → Except String Nat
  | .seekStart =>
    if offset < 0 then .error ("seek " ++ f.name ++ ": invalid argument")
    else .ok offset.toNat
  | .seekEnd =>
    if (f.data.length : Int) + offset < 0 then
      .error ("seek " ++ f.name ++ ": invalid argument")
    else .ok ((f.data.length : Int) + offset).toNat

/-- The bytes a read at absolute position `pos` sees. -/
def File.readerAt (f : File) (pos : Nat) : List Byte := f.data.drop pos

/-- The byte `buf[i]` of a buffer. -/
def at_ (buf : List Byte) (i : Nat) : Nat := (buf.getD i 0).val

/-- `int(buf[0])<<8 | int(buf[1])`. -/
def beUint16 (buf : List Byte) : Nat := at_ buf 0 <<< 8 ||| at_ buf 1

/-- `binary.BigEndian.Uint32`. -/
def beUint32 (buf : List Byte) : Nat :=
  at_ buf 3 ||| at_ buf 2 <<< 8 ||| at_ buf 1 <<< 16 ||| at_ buf 0 <<< 24

/-- `binary.LittleEndian.Uint32`. -/
def leUint32 (buf : List Byte) : Nat :=
  at_ buf 0 ||| at_ buf 1 <<< 8 ||| at_ buf 2 <<< 16 ||| at_ buf 3 <<< 24

/-! ## JPEG -/

/-- The body of the loop of `checkJpeg`; the state is `markerStart` and the
bytes left in the reader. -/
def jpegBody : Bool × List Byte → Step (Bool × List Byte)
  | (markerStart, r) =>
    match readByte r with
    | .error e => .fail ("reading marker start or entropy-coded data: " ++ e)
    | .ok (b, r) =>
      if b = 0xFF then .next (true, r)
      else if b = 0x00 then .next (false, r)
      else if markerStart then
        if b = 0xD9 then .stop r
        else if 0xD0 ≤ b ∧ b < 0xD9 then .next (false, r)
        else
          match readFull 2 r with
          | .error e => .fail ("reading marker size: " ++ e)
          | .ok (buf, r) =>
            match discard (beUint16 buf) r with
            | .error e => .fail ("skipping marker data: " ++ e)
            | .ok r => .next (false, r)
      else .next (markerStart, r)

/-- The forward walk of `checkJpeg`, from offset 0. -/
def jpegWalk (f : File) : Walk :=
  match f.seek 0 .seekStart with
  | .error e => .fail ("seeking to file start: " ++ e)
  | .ok pos => loop jpegBody ((f.readerAt pos).length + 1) (false, f.readerAt pos)

/-- Source `checkJpeg`. -/
def checkJpeg (f : File) : Result := (jpegWalk f).toResult

/-! ## PNG -/

def endSignature : List Byte :=
  [0x00, 0x00, 0x00, 0x00, 0x49, 0x45, 0x4E, 0x44, 0xAE, 0x42, 0x60, 0x82]

def iend : List Byte := [0x49, 0x45, 0x4E, 0x44]

/-- The body of the chunk loop of `checkPng`. -/
def pngBody (r : List Byte) : Step (List Byte) :=
  match readFull 4 r with
  | .error e => .fail ("reading block size: " ++ e)
  | .ok (buf, r) =>
    let length := beUint32 buf
    match readFull 4 r with
    | .error e => .fail ("reading block type: " ++ e)
    | .ok (buf, r) =>
      if buf = iend then
        match discard 4 r with
        | .error e => .fail ("skipping IEND block: " ++ e)
        | .ok r => .stop r
      else
        match discard (4 + length) r with
        | .error e => .fail ("skipping block data: " ++ e)
        | .ok r => .next r

/-- The forward walk of `checkPng`, from offset 8. -/
def pngWalk (f : File) : Walk :=
  match f.seek 8 .seekStart with
  | .error e => .fail ("seeking to first block: " ++ e)
  | .ok pos => loop pngBody ((f.readerAt pos).length + 1) (f.readerAt pos)

/-- Source `checkPng`: the check of the last 12 bytes, then the walk. -/
def checkPng (f : File) : Result :=
  match f.seek (-(endSignature.length : Int)) .seekEnd with
  | .error e => .error ("seeking to trailing IEND block: " ++ e)
  | .ok pos =>
    match readFull endSignature.length (f.readerAt pos) with
    | .error e => .error ("reading trailing IEND block: " ++ e)
    | .ok (end_, _) =>
      if end_ ≠ endSignature then .error "file does not end with IEND block"
      else (pngWalk f).toResult

/-! ## GIF -/

/-- The size of a color table as the source computes it from a packed byte
and a mask for the exponent: `3 * (1 << (1 + int(bitflag & mask)))` when bit
7 is set, nothing otherwise. -/
def colorTable (bitflag : Byte) (mask : Nat) : Nat :=
  if bitflag.val &&& 0b10000000 ≠ 0 then 3 * (1 <<< (1 + (bitflag.val &&& mask))) else 0

/-- Where the walk of `checkGif` stands: at the head of the block loop, or at
the head of the sub-block loop nested in it. -/
inductive GifState where
  | block (r : List Byte)
  | subBlock (r : List Byte)
deriving DecidableEq

/-- The bytes left in the reader. -/
def GifState.rest : GifState → List Byte
  | .block r => r
  | .subBlock r => r

/-- One iteration of the block loop of `checkGif` up to the entry of its
sub-block loop, or one iteration of the sub-block loop (whose `break` leads
back to the head of the block loop); `bitflag` is the packed byte read from
offset 10. -/
def gifBody (bitflag : Byte) : GifState → Step GifState
  | .block r =>
    match readByte r with
    | .error e => .fail ("reading block type: " ++ e)
    | .ok (blockType, r) =>
      if blockType = 0x3B then .stop r
      else if blockType = 0x2C then
        match discard 8 r with
        | .error e => .fail ("skipping image block data: " ++ e)
        | .ok r =>
          match discard (1 + colorTable bitflag 0b1111) r with
          | .error e => .fail ("skipping block data: " ++ e)
          | .ok r => .next (.subBlock r)
      else
        match discard 1 r with
        | .error e => .fail ("skipping block data: " ++ e)
        | .ok r => .next (.subBlock r)
  | .subBlock r =>
    match readByte r with
    | .error e => .fail ("reading sub-block size: " ++ e)
    | .ok (size, r) =>
      if size = 0 then .next (.block r)
      else
        match discard size.val r with
        | .error e => .fail ("skipping sub-block data: " ++ e)
        | .ok r => .next (.subBlock r)

/-- The forward walk of `checkGif`, from offset 10. -/
def gifWalk (f : File) : Walk :=
  match f.seek 10 .seekStart with
  | .error e => .fail ("seeking to header bitflag: " ++ e)
  | .ok pos =>
    match readFull 1 (f.readerAt pos) with
    | .error e => .fail ("reading header bitflag: " ++ e)
    | .ok (bitflag, r) =>
      match discard (2 + colorTable (bitflag.getD 0 0) 0b111) r with
      | .error e => .fail ("skipping header: " ++ e)
      | .ok r => loop (gifBody (bitflag.getD 0 0)) (r.length + 1) (.block r)

/-- Source `checkGif`: the check of the last byte, then the walk. -/
def checkGif (f : File) : Result :=
  match f.seek (-1) .seekEnd with
  | .error e => .error ("seeking to GIF trailer: " ++ e)
  | .ok pos =>
    match readFull 1 (f.readerAt pos) with
    | .error e => .error ("reading GIF trailer: " ++ e)
    | .ok (end_, _) =>
      if at_ end_ 0 ≠ 0x3B then .error "file does not end with GIF trailer"
      else (gifWalk f).toResult

/-! ## SWF -/

/-- What draining a decompressor over the rest of the file gives: the
constructor of the reader failed, the copy failed, or `n` bytes came out. -/
inductive Inflate where
  | headerError (msg : String)
  | streamError (msg : String)
  | bytes (n : Nat)

/-- The two decompressors `checkSwf` uses (`compress/zlib` and
`github.com/ulikunitz/xz/lzma`), as functions of the bytes they are given. -/
structure Codecs where
  zlib : List Byte → Inflate
  lzma : List Byte → Inflate

/-- Source `checkSwf`. -/
def checkSwf (cd : Codecs) (f : File) : Result :=
  match f.seek 0 .seekStart with
  | .error e => .error ("seeking to start of file: " ++ e)
  | .ok pos =>
    match readFull 1 (f.readerAt pos) with
    | .error e => .error ("reading SWF file signature: " ++ e)
    | .ok (first, _) =>
      let compressionType := at_ first 0
      match f.seek 4 .seekStart with
      | .error e => .error ("seeking to file size header: " ++ e)
      | .ok pos =>
        match readFull 4 (f.readerAt pos) with
        | .error e => .error ("reading file size header: " ++ e)
        | .ok (buf, r) =>
          let size := leUint32 buf
          if compressionType = 0x46 then
            match f.seek 0 .seekEnd with
            | .error e => .error ("seeking to file end: " ++ e)
            | .ok total =>
              if total < size then .error "file length is less than file size header"
              else .nil
          else if compressionType = 0x43 then
            match cd.zlib r with
            | .headerError e => .error ("parsing ZLIB compressed data signature: " ++ e)
            | .streamError e => .error ("decompressing ZLIB compressed data: " ++ e)
            | .bytes n =>
              if n + 8 < size then
                .error "ZLIB-decompressed data length is less than file size header"
              else .nil
          else if compressionType = 0x5A then
            match cd.lzma r with
            | .headerError e => .error ("parsing LZMA compressed data signature: " ++ e)
            | .streamError e => .error ("decompressing LZMA compressed data: " ++ e)
            | .bytes n =>
              if n + 8 < size then
                .error "LZMA-compressed data length is less than file size header"
              else .nil
          else .error "file has unknown compression type"

/-! ## Dispatch -/

def pngSignature : List Byte := [0x89, 0x50, 0x4E, 0x47, 0x0D, 0x0A, 0x1A, 0x0A]

def gifSignature : List Byte := [0x47, 0x49, 0x46, 0x38]

def jpegSignature : List Byte := [0xFF, 0xD8]

def swfSignature : List Byte := [0x57, 0x53]

/-- Source `checkFile`, on a file just opened (read position 0). -/
def checkFile (cd : Codecs) (f : File) : Result :=
  match readFull 8 (f.readerAt 0) with
  | .error e => .error ("reading file signature: " ++ e)
  | .ok (signature, _) =>
    if pngSignature.isPrefixOf signature then wrap "PNG file: " (checkPng f)
    else if gifSignature.isPrefixOf signature then wrap "GIF file: " (checkGif f)
    else if jpegSignature.isPrefixOf signature then wrap "JPEG file: " (checkJpeg f)
    else if swfSignature.isPrefixOf (signature.drop 1) then wrap "SWF file: " (checkSwf cd f)
    else .error "unknown image file format"

/-- Source `Check`, once `os.Open` has given the file. -/
def Check (cd : Codecs) (f : File) : Result := checkFile cd f

/-! ## Relating the runs over two files -/

/-- Simulation of a run from `t` by a run from `s`, for states related by `R`:
a step from `s` fails, or both steps go round again into related states, or
both leave the loop with reader positions related by `Q`. -/
def Simulates {σ : Type} (body : σ → Step σ) (R : σ → σ → Prop)
    (Q : List Byte → List Byte → Prop) : Prop :=
  ∀ s t, R s t →
    (∃ m, body s = .fail m) ∨
    (∃ s' t', body s = .next s' ∧ body t = .next t' ∧ R s' t') ∨
    (∃ r q, body s = .stop r ∧ body t = .stop q ∧ Q r q)

/-- The reader position `q` is the position `r` in a file extended by `suf`. -/
def Extends (suf : List Byte) (r q : List Byte) : Prop := q = r ++ suf

/-- The state `s` of the GIF walk, in a file extended by `suf`. -/
def GifState.extend (suf : List Byte) : GifState → GifState
  | .block r => .block (r ++ suf)
  | .subBlock r => .subBlock (r ++ suf)

/-- Entropy-coded data in the sense of the JPEG claims: a sequence of bytes
other than `0xFF` and of stuffed pairs `FF 00`. -/
inductive EntropyCoded : List Byte → Prop where
  | nil : EntropyCoded []
  | byte (b : Byte) (l : List Byte) : b ≠ 0xFF → EntropyCoded l → EntropyCoded (b :: l)
  | stuffed (l : List Byte) : EntropyCoded l → EntropyCoded (0xFF :: 0x00 :: l)

/-- A file of at least 8 bytes whose bytes 1 and 2 are `W` `S`: `c` is the
compression byte, `v` the version byte, `b4 .. b7` the size header and `rest`
the bytes from offset 8 on. -/
def swfFile (c v b4 b5 b6 b7 : Byte) (rest : List Byte) : List Byte :=
  c :: 0x57 :: 0x53 :: v :: b4 :: b5 :: b6 :: b7 :: rest

/-- The unsigned 32-bit little-endian integer stored in the bytes `b4 .. b7`. -/
def declaredSize (b4 b5 b6 b7 : Byte) : Nat :=
  b4.val + 256 * b5.val + 65536 * b6.val + 16777216 * b7.val

/-- `checkFile` succeeds exactly when the walker `check` does, and an error
of the walker comes back with `name` in front of its message. -/
def Dispatches (cd : Codecs) (f : File) (check : File → Result) (name : String) : Prop :=
  (checkFile cd f = .nil ↔ check f = .nil) ∧
  ∀ m, check f = .error m → checkFile cd f = .error (name ++ m)

/-- The unsigned 32-bit big-endian integer made of four bytes. -/
def bigEndian32 (b0 b1 b2 b3 : Byte) : Nat :=
  16777216 * b0.val + 65536 * b1.val + 256 * b2.val + b3.val

/-- The chunk walk in the words of the PNG claim: from the bytes `r` the walk
reads a 4-byte length and a 4-byte type; either the type is `IEND` and at
least 4 more bytes follow, whatever the length field says, or the type is not
`IEND`, the file holds the `L + 4` bytes to skip, and the walk from the byte
after them reaches such an `IEND` header. -/
inductive ReachesIend : List Byte → Prop where
  | found (l0 l1 l2 l3 : Byte) (tail : List Byte) : 4 ≤ tail.length →
      ReachesIend (l0 :: l1 :: l2 :: l3 :: 0x49 :: 0x45 :: 0x4E :: 0x44 :: tail)
  | skip (l0 l1 l2 l3 t0 t1 t2 t3 : Byte) (tail : List Byte) :
      [t0, t1, t2, t3] ≠ iend → bigEndian32 l0 l1 l2 l3 + 4 ≤ tail.length →
      ReachesIend (tail.drop (bigEndian32 l0 l1 l2 l3 + 4)) →
      ReachesIend (l0 :: l1 :: l2 :: l3 :: t0 :: t1 :: t2 :: t3 :: tail)

/-- The offset of the first block-type byte of a GIF in the words of the
claim: `13 + 3 * 2^(e + 1)` with `e = p & 0b111` when bit 7 of the packed byte
`p` is set, `13` when it is clear. -/
def firstBlockOffset (p : Byte) : Nat :=
  if p.val.testBit 7 then 13 + 3 * 2 ^ ((p.val &&& 0b111) + 1) else 13

/-- Decompressors that reject every input; used for concrete files that are
not compressed. -/
def noCodec : Codecs :=
  ⟨fun _ => .headerError "invalid header", fun _ => .headerError "invalid header"⟩

/-! ## Loops: fuel, termination, and files that extend one another -/

theorem loop_fuel_add {σ : Type} (body : σ → Step σ) (k : Nat) :
    ∀ (n : Nat) (s : σ), loop body n s ≠ .unfinished → loop body (n + k) s = loop body n s := by
  intro n
  induction n with
  | zero => intro s h; exact absurd rfl h
  | succ n ih =>
    intro s h
    rw [Nat.add_right_comm]
    simp only [loop] at h ⊢
    cases hb : body s with
    | next s' => rw [hb] at h; exact ih s' h
    | stop r => rfl
    | fail m => rfl

theorem loop_fuel_le {σ : Type} (body : σ → Step σ) (n n' : Nat) (s : σ)
    (h : loop body n s ≠ .unfinished) (hle : n ≤ n') : loop body n' s = loop body n s := by
  obtain ⟨k, rfl⟩ := Nat.exists_eq_add_of_le hle
  exact loop_fuel_add body k n s h

/-- A loop whose every iteration that goes round again makes the measure `μ`
smaller returns within `μ s + 1` iterations. -/
theorem loop_total {σ : Type} (body : σ → Step σ) (μ : σ → Nat)
    (hdec : ∀ s s', body s = .next s' → μ s' < μ s) :
    ∀ (n : Nat) (s : σ), μ s < n → loop body n s ≠ .unfinished := by
  intro n
  induction n with
  | zero => intro s h; exact absurd h (Nat.not_lt_zero _)
  | succ n ih =>
    intro s h
    simp only [loop]
    cases hb : body s with
    | next s' =>
      have := hdec s s' hb
      exact ih s' (by omega)
    | stop r => simp
    | fail m => simp

theorem loop_simulates {σ : Type} (body : σ → Step σ) (R : σ → σ → Prop)
    (Q : List Byte → List Byte → Prop) (H : Simulates body R Q) :
    ∀ (n : Nat) (s t : σ), R s t →
      (∃ m, loop body n s = .fail m) ∨
      (loop body n s = .unfinished ∧ loop body n t = .unfinished) ∨
      (∃ r q, loop body n s = .stop r ∧ loop body n t = .stop q ∧ Q r q) := by
  intro n
  induction n with
  | zero => intro s t _; exact Or.inr (Or.inl ⟨rfl, rfl⟩)
  | succ n ih =>
    intro s t hR
    rcases H s t hR with ⟨m, hs⟩ | ⟨s', t', hs, ht, hR'⟩ | ⟨r, q, hs, ht, hQ⟩
    · exact Or.inl ⟨m, by simp [loop, hs]⟩
    · simpa [loop, hs, ht] using ih s' t' hR'
    · exact Or.inr (Or.inr ⟨r, q, by simp [loop, hs], by simp [loop, ht], hQ⟩)

/-! ### The reader primitives on a file and on an extension of it -/

theorem readFull_of_le {n : Nat} {p : List Byte} (h : n ≤ p.length) (suf : List Byte) :
    readFull n (p ++ suf) = .ok (p.take n, p.drop n ++ suf) := by
  have h' : n ≤ p.length + suf.length := by omega
  simp [readFull, h', List.take_append_of_le_length h, List.drop_append_of_le_length h]

theorem readFull_of_lt {n : Nat} {p : List Byte} (h : p.length < n) :
    ∃ e, readFull n p = .error e := by
  have h' : ¬ n ≤ p.length := by omega
  unfold readFull
  rw [if_neg h']
  split
  · exact ⟨_, rfl⟩
  · exact ⟨_, rfl⟩

theorem discard_of_le {n : Nat} {p : List Byte} (h : n ≤ p.length) (suf : List Byte) :
    discard n (p ++ suf) = .ok (p.drop n ++ suf) := by
  have h' : n ≤ p.length + suf.length := by omega
  simp [discard, h', List.drop_append_of_le_length h]

theorem discard_of_lt {n : Nat} {p : List Byte} (h : p.length < n) :
    discard n p = .error "EOF" := by
  have h' : ¬ n ≤ p.length := by omega
  simp [discard, h']

/-- The four cases of a `ReadFull` on a file `p` and on `p ++ suf`. -/
theorem readFull_cases (n : Nat) (p suf : List Byte) :
    (∃ e, readFull n p = .error e) ∨
    (readFull n p = .ok (p.take n, p.drop n) ∧
      readFull n (p ++ suf) = .ok (p.take n, p.drop n ++ suf)) := by
  by_cases h : n ≤ p.length
  · right
    refine ⟨?_, readFull_of_le h suf⟩
    simpa using readFull_of_le h []
  · left
    exact readFull_of_lt (by omega)

theorem discard_cases (n : Nat) (p suf : List Byte) :
    (discard n p = .error "EOF") ∨
    (discard n p = .ok (p.drop n) ∧ discard n (p ++ suf) = .ok (p.drop n ++ suf)) := by
  by_cases h : n ≤ p.length
  · right
    refine ⟨?_, discard_of_le h suf⟩
    simpa using discard_of_le h []
  · left
    exact discard_of_lt (by omega)

theorem jpegBody_simulates (suf : List Byte) :
    Simulates jpegBody (fun s t => t = (s.1, s.2 ++ suf)) (Extends suf) := by
  rintro ⟨ms, p⟩ t rfl
  cases p with
  | nil => left; exact ⟨_, rfl⟩
  | cons b p =>
    simp only [jpegBody, readByte, List.cons_append]
    by_cases h1 : b = 0xFF
    · right; left; exact ⟨(true, p), (true, p ++ suf), by simp [h1], by simp [h1], rfl⟩
    by_cases h2 : b = 0x00
    · right; left; exact ⟨(false, p), (false, p ++ suf), by simp [h2], by simp [h2], rfl⟩
    cases ms with
    | false =>
      right; left
      exact ⟨(false, p), (false, p ++ suf), by simp [h1, h2], by simp [h1, h2], rfl⟩
    | true =>
      by_cases h3 : b = 0xD9
      · right; right; exact ⟨p, p ++ suf, by simp [h3], by simp [h3], rfl⟩
      by_cases h4 : 0xD0 ≤ b ∧ b < 0xD9
      · right; left
        exact ⟨(false, p), (false, p ++ suf), by simp [h1, h2, h3, h4],
          by simp [h1, h2, h3, h4], rfl⟩
      simp only [h1, h2, h3, h4, if_false, if_true]
      rcases readFull_cases 2 p suf with ⟨e, he⟩ | ⟨hp, hq⟩
      · left; rw [he]; exact ⟨_, rfl⟩
      · simp only [hp, hq]
        rcases discard_cases (beUint16 (p.take 2)) (p.drop 2) suf with he | ⟨hp', hq'⟩
        · left; rw [he]; exact ⟨_, rfl⟩
        · right; left
          exact ⟨(false, (p.drop 2).drop (beUint16 (p.take 2))),
            (false, (p.drop 2).drop (beUint16 (p.take 2)) ++ suf),
            by simp [hp'], by simp [hq'], rfl⟩

theorem pngBody_simulates (suf : List Byte) :
    Simulates pngBody (Extends suf) (Extends suf) := by
  rintro p t rfl
  simp only [pngBody]
  rcases readFull_cases 4 p suf with ⟨e, he⟩ | ⟨hp, hq⟩
  · left; rw [he]; exact ⟨_, rfl⟩
  simp only [hp, hq]
  rcases readFull_cases 4 (p.drop 4) suf with ⟨e, he⟩ | ⟨hp2, hq2⟩
  · left; rw [he]; exact ⟨_, rfl⟩
  simp only [hp2, hq2]
  by_cases hi : List.take 4 (List.drop 4 p) = iend
  · simp only [hi, if_true]
    rcases discard_cases 4 ((p.drop 4).drop 4) suf with he | ⟨hp3, hq3⟩
    · left; rw [he]; exact ⟨_, rfl⟩
    · right; right
      exact ⟨((p.drop 4).drop 4).drop 4, ((p.drop 4).drop 4).drop 4 ++ suf,
        by rw [hp3], by rw [hq3], rfl⟩
  · simp only [hi, if_false]
    rcases discard_cases (4 + beUint32 (p.take 4)) ((p.drop 4).drop 4) suf with he | ⟨hp3, hq3⟩
    · left; rw [he]; exact ⟨_, rfl⟩
    · right; left
      exact ⟨((p.drop 4).drop 4).drop (4 + beUint32 (p.take 4)),
        ((p.drop 4).drop 4).drop (4 + beUint32 (p.take 4)) ++ suf,
        by rw [hp3], by rw [hq3], rfl⟩

theorem gifBody_simulates (bitflag : Byte) (suf : List Byte) :
    Simulates (gifBody bitflag) (fun s t => t = s.extend suf) (Extends suf) := by
  rintro s t rfl
  cases s with
  | block p =>
    cases p with
    | nil => left; exact ⟨_, rfl⟩
    | cons b p =>
      simp only [gifBody, GifState.extend, readByte, List.cons_append]
      by_cases h1 : b = 0x3B
      · right; right; exact ⟨p, p ++ suf, by simp [h1], by simp [h1], rfl⟩
      by_cases h2 : b = 0x2C
      · rw [if_neg h1, if_pos h2, if_neg h1, if_pos h2]
        rcases discard_cases 8 p suf with he | ⟨hp, hq⟩
        · left; rw [he]; exact ⟨_, rfl⟩
        simp only [hp, hq]
        rcases discard_cases (1 + colorTable bitflag 0b1111) (p.drop 8) suf with he | ⟨hp2, hq2⟩
        · left; rw [he]; exact ⟨_, rfl⟩
        · right; left
          exact ⟨.subBlock ((p.drop 8).drop (1 + colorTable bitflag 0b1111)),
            .subBlock ((p.drop 8).drop (1 + colorTable bitflag 0b1111) ++ suf),
            by rw [hp2], by rw [hq2], rfl⟩
      · rw [if_neg h1, if_neg h2, if_neg h1, if_neg h2]
        rcases discard_cases 1 p suf with he | ⟨hp, hq⟩
        · left; rw [he]; exact ⟨_, rfl⟩
        · right; left
          exact ⟨.subBlock (p.drop 1), .subBlock (p.drop 1 ++ suf), by rw [hp], by rw [hq], rfl⟩
  | subBlock p =>
    cases p with
    | nil => left; exact ⟨_, rfl⟩
    | cons b p =>
      simp only [gifBody, GifState.extend, readByte, List.cons_append]
      by_cases h1 : b = 0
      · right; left; exact ⟨.block p, .block (p ++ suf), by simp [h1], by simp [h1], rfl⟩
      · simp only [h1, if_false]
        rcases discard_cases b.val p suf with he | ⟨hp, hq⟩
        · left; rw [he]; exact ⟨_, rfl⟩
        · right; left
          exact ⟨.subBlock (p.drop b.val), .subBlock (p.drop b.val ++ suf),
            by rw [hp], by rw [hq], rfl⟩

/-! ### Every iteration that goes round again has consumed a byte -/

theorem readFull_ok {n : Nat} {r buf r' : List Byte} (h : readFull n r = .ok (buf, r')) :
    n ≤ r.length ∧ buf = r.take n ∧ r' = r.drop n := by
  unfold readFull at h
  split at h
  · rename_i hle
    simp only [Except.ok.injEq, Prod.mk.injEq] at h
    exact ⟨hle, h.1.symm, h.2.symm⟩
  · split at h <;> simp at h

theorem discard_ok {n : Nat} {r r' : List Byte} (h : discard n r = .ok r') :
    n ≤ r.length ∧ r' = r.drop n := by
  unfold discard at h
  split at h
  · rename_i hle
    simp only [Except.ok.injEq] at h
    exact ⟨hle, h.symm⟩
  · simp at h

theorem jpegBody_decreases (s s' : Bool × List Byte) (h : jpegBody s = .next s') :
    s'.2.length < s.2.length := by
  obtain ⟨ms, r⟩ := s
  cases r with
  | nil => simp [jpegBody, readByte] at h
  | cons b p =>
    simp only [jpegBody, readByte] at h
    split_ifs at h
    all_goals first
      | (simp only [Step.next.injEq] at h; subst h; simp)
      | (cases h1 : readFull 2 p with
          | error e => rw [h1] at h; simp at h
          | ok v =>
            obtain ⟨buf, q⟩ := v
            rw [h1] at h
            simp only at h
            cases h2 : discard (beUint16 buf) q with
            | error e => rw [h2] at h; simp at h
            | ok q' =>
              rw [h2] at h
              simp only [Step.next.injEq] at h
              subst h
              have := (readFull_ok h1).2.2
              have := (discard_ok h2).2
              subst_vars
              simp only [List.length_cons, List.length_drop]
              omega)

theorem pngBody_decreases (s s' : List Byte) (h : pngBody s = .next s') :
    s'.length < s.length := by
  simp only [pngBody] at h
  cases h1 : readFull 4 s with
  | error e => rw [h1] at h; simp at h
  | ok v =>
    obtain ⟨buf, q⟩ := v
    rw [h1] at h
    simp only at h
    cases h2 : readFull 4 q with
    | error e => rw [h2] at h; simp at h
    | ok v2 =>
      obtain ⟨buf2, q2⟩ := v2
      rw [h2] at h
      simp only at h
      obtain ⟨hle1, -, rfl⟩ := readFull_ok h1
      obtain ⟨hle2, -, rfl⟩ := readFull_ok h2
      simp only [List.length_drop] at hle2
      split_ifs at h
      · cases h3 : discard 4 (List.drop 4 (List.drop 4 s)) with
        | error e => rw [h3] at h; simp at h
        | ok q3 => rw [h3] at h; simp at h
      · cases h3 : discard (4 + beUint32 buf) (List.drop 4 (List.drop 4 s)) with
        | error e => rw [h3] at h; simp at h
        | ok q3 =>
          rw [h3] at h
          simp only [Step.next.injEq] at h
          subst h
          obtain ⟨-, rfl⟩ := discard_ok h3
          simp only [List.length_drop]
          omega

theorem gifBody_decreases (bitflag : Byte) (s s' : GifState) (h : gifBody bitflag s = .next s') :
    s'.rest.length < s.rest.length := by
  cases s with
  | block r =>
    cases r with
    | nil => simp [gifBody, readByte] at h
    | cons b p =>
      simp only [gifBody, readByte] at h
      split_ifs at h
      · cases h1 : discard 8 p with
        | error e => rw [h1] at h; simp at h
        | ok q =>
          rw [h1] at h
          simp only at h
          cases h2 : discard (1 + colorTable bitflag 0b1111) q with
          | error e => rw [h2] at h; simp at h
          | ok q2 =>
            rw [h2] at h
            simp only [Step.next.injEq] at h
            subst h
            obtain ⟨-, rfl⟩ := discard_ok h1
            obtain ⟨-, rfl⟩ := discard_ok h2
            simp only [GifState.rest, List.length_cons, List.length_drop]
            omega
      · cases h1 : discard 1 p with
        | error e => rw [h1] at h; simp at h
        | ok q =>
          rw [h1] at h
          simp only [Step.next.injEq] at h
          subst h
          obtain ⟨-, rfl⟩ := discard_ok h1
          simp only [GifState.rest, List.length_cons, List.length_drop]
          omega
  | subBlock r =>
    cases r with
    | nil => simp [gifBody, readByte] at h
    | cons b p =>
      simp only [gifBody, readByte] at h
      split_ifs at h
      · simp only [Step.next.injEq] at h
        subst h
        simp [GifState.rest]
      · cases h1 : discard b.val p with
        | error e => rw [h1] at h; simp at h
        | ok q =>
          rw [h1] at h
          simp only [Step.next.injEq] at h
          subst h
          obtain ⟨-, rfl⟩ := discard_ok h1
          simp only [GifState.rest, List.length_cons, List.length_drop]
          omega

/-! ### A walk over a file and over an extension of it -/

/-- A run with fuel `μ s + 1` fails or stops, and when it stops every run
from a related state with at least that fuel stops at the related position. -/
theorem loop_extend {σ : Type} (body : σ → Step σ) (R : σ → σ → Prop)
    (Q : List Byte → List Byte → Prop) (μ : σ → Nat) (H : Simulates body R Q)
    (hdec : ∀ s s', body s = .next s' → μ s' < μ s) (s t : σ) (hR : R s t)
    (n : Nat) (hn : μ s + 1 ≤ n) :
    (∃ m, loop body (μ s + 1) s = .fail m) ∨
    (∃ r q, loop body (μ s + 1) s = .stop r ∧ loop body n t = .stop q ∧ Q r q) := by
  rcases loop_simulates body R Q H (μ s + 1) s t hR with hf | ⟨hu, -⟩ | ⟨r, q, hs, ht, hQ⟩
  · exact Or.inl hf
  · exact absurd hu (loop_total body μ hdec (μ s + 1) s (Nat.lt_succ_self _))
  · refine Or.inr ⟨r, q, hs, ?_, hQ⟩
    rw [loop_fuel_le body (μ s + 1) n t (by rw [ht]; simp) hn, ht]

theorem seek_start (f : File) (k : Nat) : f.seek (k : Int) .seekStart = .ok k := by
  simp [File.seek]

theorem jpegWalk_eq (f : File) :
    jpegWalk f = loop jpegBody (f.data.length + 1) (false, f.data) := by
  have h := seek_start f 0
  simp only [Nat.cast_zero] at h
  simp [jpegWalk, h, File.readerAt]

theorem pngWalk_eq (f : File) :
    pngWalk f = loop pngBody ((f.data.drop 8).length + 1) (f.data.drop 8) := by
  have h := seek_start f 8
  simp only [Nat.cast_ofNat] at h
  simp only [pngWalk, h, File.readerAt]

theorem gifWalk_eq (f : File) :
    gifWalk f =
      match readFull 1 (f.data.drop 10) with
      | .error e => .fail ("reading header bitflag: " ++ e)
      | .ok (bitflag, r) =>
        match discard (2 + colorTable (bitflag.getD 0 0) 0b111) r with
        | .error e => .fail ("skipping header: " ++ e)
        | .ok r => loop (gifBody (bitflag.getD 0 0)) (r.length + 1) (.block r) := by
  have h := seek_start f 10
  simp only [Nat.cast_ofNat] at h
  simp only [gifWalk, h, File.readerAt]

/-- The JPEG walk over `p` fails, or it stops and the walk over any extension
of `p` stops at the same offset. -/
theorem jpegWalk_cases (n n' : String) (p suf : List Byte) :
    (∃ m, jpegWalk ⟨n, p⟩ = .fail m) ∨
    (∃ r, jpegWalk ⟨n, p⟩ = .stop r ∧ jpegWalk ⟨n', p ++ suf⟩ = .stop (r ++ suf)) := by
  rw [jpegWalk_eq, jpegWalk_eq]
  rcases loop_extend jpegBody _ _ (fun s => s.2.length) (jpegBody_simulates suf)
      jpegBody_decreases (false, p) (false, p ++ suf) rfl ((p ++ suf).length + 1)
      (by simp) with hf | ⟨r, q, hs, ht, hQ⟩
  · exact Or.inl hf
  · exact Or.inr ⟨r, hs, by rw [ht, hQ]⟩

theorem pngWalk_cases (n n' : String) (p suf : List Byte) :
    (∃ m, pngWalk ⟨n, p⟩ = .fail m) ∨
    (∃ r, pngWalk ⟨n, p⟩ = .stop r ∧ pngWalk ⟨n', p ++ suf⟩ = .stop (r ++ suf)) := by
  rw [pngWalk_eq, pngWalk_eq]
  by_cases h8 : 8 ≤ p.length
  · simp only [List.drop_append_of_le_length h8]
    rcases loop_extend pngBody _ _ (fun s => s.length) (pngBody_simulates suf)
        pngBody_decreases (p.drop 8) (p.drop 8 ++ suf) rfl ((p.drop 8 ++ suf).length + 1)
        (by simp) with hf | ⟨r, q, hs, ht, hQ⟩
    · exact Or.inl hf
    · exact Or.inr ⟨r, hs, by rw [ht, hQ]⟩
  · left
    have : p.drop 8 = [] := List.drop_eq_nil_of_le (by omega)
    simp only [this]
    exact ⟨_, rfl⟩

theorem gifWalk_cases (n n' : String) (p suf : List Byte) :
    (∃ m, gifWalk ⟨n, p⟩ = .fail m) ∨
    (∃ r, gifWalk ⟨n, p⟩ = .stop r ∧ gifWalk ⟨n', p ++ suf⟩ = .stop (r ++ suf)) := by
  rw [gifWalk_eq, gifWalk_eq]
  by_cases h10 : 10 ≤ p.length
  · simp only [List.drop_append_of_le_length h10]
    rcases readFull_cases 1 (p.drop 10) suf with ⟨e, he⟩ | ⟨hp, hq⟩
    · left; rw [he]; exact ⟨_, rfl⟩
    simp only [hp, hq]
    generalize ((p.drop 10).take 1).getD 0 0 = bitflag
    rcases discard_cases (2 + colorTable bitflag 0b111) ((p.drop 10).drop 1) suf with
      he | ⟨hp2, hq2⟩
    · left; rw [he]; exact ⟨_, rfl⟩
    simp only [hp2, hq2]
    generalize ((p.drop 10).drop 1).drop (2 + colorTable bitflag 0b111) = r0
    rcases loop_extend (gifBody bitflag) _ _ (fun s => s.rest.length)
        (gifBody_simulates bitflag suf) (gifBody_decreases bitflag) (.block r0)
        (.block (r0 ++ suf)) rfl ((r0 ++ suf).length + 1) (by simp [GifState.rest])
        with hf | ⟨r, q, hs, ht, hQ⟩
    · exact Or.inl hf
    · exact Or.inr ⟨r, hs, by rw [ht, hQ]⟩
  · left
    have : p.drop 10 = [] := List.drop_eq_nil_of_le (by omega)
    simp only [this]
    exact ⟨_, rfl⟩

/-! ### Dispatch on the signature -/

theorem checkFile_short (cd : Codecs) (f : File) (h : f.data.length < 8) :
    ∃ e, checkFile cd f = .error ("reading file signature: " ++ e) := by
  obtain ⟨e, he⟩ := readFull_of_lt (n := 8) (p := f.data) h
  exact ⟨e, by simp [checkFile, File.readerAt, he]⟩

theorem checkFile_eq (cd : Codecs) (f : File) (h : 8 ≤ f.data.length) :
    checkFile cd f =
      if pngSignature.isPrefixOf (f.data.take 8) then wrap "PNG file: " (checkPng f)
      else if gifSignature.isPrefixOf (f.data.take 8) then wrap "GIF file: " (checkGif f)
      else if jpegSignature.isPrefixOf (f.data.take 8) then wrap "JPEG file: " (checkJpeg f)
      else if swfSignature.isPrefixOf ((f.data.take 8).drop 1) then
        wrap "SWF file: " (checkSwf cd f)
      else .error "unknown image file format" := by
  simp [checkFile, File.readerAt, readFull, h]

theorem length_of_checkFile_nil (cd : Codecs) (f : File) (h : checkFile cd f = .nil) :
    8 ≤ f.data.length := by
  by_contra hlt
  obtain ⟨e, he⟩ := checkFile_short cd f (by omega)
  rw [he] at h
  exact Result.noConfusion h

theorem isPrefixOf_cons_iff (a : Byte) (l s : List Byte) :
    (a :: l).isPrefixOf s = true ↔ ∃ t, s = a :: t ∧ l.isPrefixOf t = true := by
  cases s with
  | nil => simp [List.isPrefixOf]
  | cons b t =>
    simp only [List.isPrefixOf, Bool.and_eq_true, beq_iff_eq, List.cons.injEq]
    constructor
    · rintro ⟨rfl, h⟩; exact ⟨t, ⟨rfl, rfl⟩, h⟩
    · rintro ⟨t', ⟨rfl, rfl⟩, h⟩; exact ⟨rfl, h⟩

theorem png_not_gif (s : List Byte) (h : pngSignature.isPrefixOf s = true) :
    gifSignature.isPrefixOf s = false := by
  obtain ⟨t, rfl, -⟩ := (isPrefixOf_cons_iff _ _ _).1 h
  rfl

theorem png_not_jpeg (s : List Byte) (h : pngSignature.isPrefixOf s = true) :
    jpegSignature.isPrefixOf s = false := by
  obtain ⟨t, rfl, -⟩ := (isPrefixOf_cons_iff _ _ _).1 h
  rfl

theorem gif_not_png (s : List Byte) (h : gifSignature.isPrefixOf s = true) :
    pngSignature.isPrefixOf s = false := by
  obtain ⟨t, rfl, -⟩ := (isPrefixOf_cons_iff _ _ _).1 h
  rfl

theorem gif_not_jpeg (s : List Byte) (h : gifSignature.isPrefixOf s = true) :
    jpegSignature.isPrefixOf s = false := by
  obtain ⟨t, rfl, -⟩ := (isPrefixOf_cons_iff _ _ _).1 h
  rfl

theorem jpeg_not_png (s : List Byte) (h : jpegSignature.isPrefixOf s = true) :
    pngSignature.isPrefixOf s = false := by
  obtain ⟨t, rfl, -⟩ := (isPrefixOf_cons_iff _ _ _).1 h
  rfl

theorem jpeg_not_gif (s : List Byte) (h : jpegSignature.isPrefixOf s = true) :
    gifSignature.isPrefixOf s = false := by
  obtain ⟨t, rfl, -⟩ := (isPrefixOf_cons_iff _ _ _).1 h
  rfl

theorem checkFile_png (cd : Codecs) (f : File) (h : 8 ≤ f.data.length)
    (hs : pngSignature.isPrefixOf (f.data.take 8) = true) :
    checkFile cd f = wrap "PNG file: " (checkPng f) := by
  rw [checkFile_eq cd f h, if_pos hs]

theorem checkFile_gif (cd : Codecs) (f : File) (h : 8 ≤ f.data.length)
    (hs : gifSignature.isPrefixOf (f.data.take 8) = true) :
    checkFile cd f = wrap "GIF file: " (checkGif f) := by
  rw [checkFile_eq cd f h, if_neg (by simp [gif_not_png _ hs]), if_pos hs]

theorem checkFile_jpeg (cd : Codecs) (f : File) (h : 8 ≤ f.data.length)
    (hs : jpegSignature.isPrefixOf (f.data.take 8) = true) :
    checkFile cd f = wrap "JPEG file: " (checkJpeg f) := by
  rw [checkFile_eq cd f h, if_neg (by simp [jpeg_not_png _ hs]),
    if_neg (by simp [jpeg_not_gif _ hs]), if_pos hs]

theorem wrap_eq_nil {c : String} {x : Result} (h : wrap c x = .nil) : x = .nil := by
  cases x <;> simp [wrap] at h ⊢

theorem wrap_error {c : String} {x : Result} (h : ∃ m, x = .error m) :
    ∃ m, wrap c x = .error m := by
  obtain ⟨m, rfl⟩ := h
  exact ⟨_, rfl⟩

theorem toResult_eq_nil {w : Walk} (h : w.toResult = .nil) : ∃ r, w = .stop r := by
  cases w with
  | stop r => exact ⟨r, rfl⟩
  | fail m => simp [Walk.toResult] at h
  | unfinished => simp [Walk.toResult] at h

theorem checkJpeg_error (f : File) (h : ∃ m, jpegWalk f = .fail m) :
    ∃ m, checkJpeg f = .error m := by
  obtain ⟨m, hm⟩ := h
  exact ⟨m, by simp [checkJpeg, hm, Walk.toResult]⟩

theorem checkPng_error (f : File) (h : ∃ m, pngWalk f = .fail m) :
    ∃ m, checkPng f = .error m := by
  obtain ⟨m, hm⟩ := h
  unfold checkPng
  split
  · exact ⟨_, rfl⟩
  · split
    · exact ⟨_, rfl⟩
    · split
      · exact ⟨_, rfl⟩
      · exact ⟨m, by simp [hm, Walk.toResult]⟩

theorem checkGif_error (f : File) (h : ∃ m, gifWalk f = .fail m) :
    ∃ m, checkGif f = .error m := by
  obtain ⟨m, hm⟩ := h
  unfold checkGif
  split
  · exact ⟨_, rfl⟩
  · split
    · exact ⟨_, rfl⟩
    · split
      · exact ⟨_, rfl⟩
      · exact ⟨m, by simp [hm, Walk.toResult]⟩

theorem checkPng_walk (f : File) (h : checkPng f = .nil) : ∃ r, pngWalk f = .stop r := by
  unfold checkPng at h
  split at h
  · simp at h
  · split at h
    · simp at h
    · split at h
      · simp at h
      · exact toResult_eq_nil h

theorem checkGif_walk (f : File) (h : checkGif f = .nil) : ∃ r, gifWalk f = .stop r := by
  unfold checkGif at h
  split at h
  · simp at h
  · split at h
    · simp at h
    · split at h
      · simp at h
      · exact toResult_eq_nil h

/-- A walk over a file cut before the offset at which the walk over the whole
file stopped fails. -/
theorem walk_cut_fails (walk : File → Walk)
    (hcases : ∀ (n n' : String) (p suf : List Byte),
      (∃ m, walk ⟨n, p⟩ = .fail m) ∨
      (∃ r, walk ⟨n, p⟩ = .stop r ∧ walk ⟨n', p ++ suf⟩ = .stop (r ++ suf)))
    (f : File) (r : List Byte) (hw : walk f = .stop r) (k : Nat) (n : String)
    (hk : k + r.length < f.data.length) : ∃ m, walk ⟨n, f.data.take k⟩ = .fail m := by
  rcases hcases n f.name (f.data.take k) (f.data.drop k) with hf | ⟨r', -, hfull⟩
  · exact hf
  · exfalso
    rw [List.take_append_drop] at hfull
    have hf : (⟨f.name, f.data⟩ : File) = f := rfl
    rw [hf, hw] at hfull
    simp only [Walk.stop.injEq] at hfull
    have := congrArg List.length hfull
    simp only [List.length_append, List.length_drop] at this
    omega

/-! ## Truncation -/

theorem cut_rejected (cd : Codecs) (f : File) (k : Nat) (n : String) (check : File → Result)
    (c : String)
    (hdisp : ∀ g : File, 8 ≤ g.data.length → g.data.take 8 = f.data.take 8 →
      checkFile cd g = wrap c (check g))
    (herr : ∃ m, check ⟨n, f.data.take k⟩ = .error m) :
    ∃ m, Check cd ⟨n, f.data.take k⟩ = .error m := by
  unfold Check
  by_cases hk8 : (f.data.take k).length < 8
  · obtain ⟨e, he⟩ := checkFile_short cd ⟨n, f.data.take k⟩ hk8
    exact ⟨_, he⟩
  · have hlen : 8 ≤ (f.data.take k).length := by omega
    have hk : 8 ≤ k := by
      have := List.length_take_le k f.data
      omega
    have hsig : (f.data.take k).take 8 = f.data.take 8 := by
      rw [List.take_take, Nat.min_eq_left hk]
    rw [hdisp ⟨n, f.data.take k⟩ hlen hsig]
    exact wrap_error herr

/-- C1: when `Check` accepts a file whose signature is that of a PNG, a GIF or
a JPEG, the forward walk of that format's walker stopped with some bytes `r`
left unread (right after the CRC of the first `IEND` chunk, after the `0xD9`
of the EOI marker, after the `0x3B` block type), and `Check` returns an error
on every prefix of the file of length `k` shorter than the offset
`length - r.length` at which the walk stopped. -/
theorem truncation_before_terminator_rejected (cd : Codecs) (f : File)
    (hacc : Check cd f = .nil)
    (hfmt : pngSignature.isPrefixOf (f.data.take 8) = true ∨
      gifSignature.isPrefixOf (f.data.take 8) = true ∨
      jpegSignature.isPrefixOf (f.data.take 8) = true) :
    ∃ r : List Byte,
      ((pngSignature.isPrefixOf (f.data.take 8) = true ∧ pngWalk f = .stop r) ∨
       (gifSignature.isPrefixOf (f.data.take 8) = true ∧ gifWalk f = .stop r) ∨
       (jpegSignature.isPrefixOf (f.data.take 8) = true ∧ jpegWalk f = .stop r)) ∧
      ∀ (k : Nat) (n : String), k + r.length < f.data.length →
        ∃ m, Check cd ⟨n, f.data.take k⟩ = .error m := by
  have h8 := length_of_checkFile_nil cd f hacc
  unfold Check at hacc
  rcases hfmt with hs | hs | hs
  · rw [checkFile_png cd f h8 hs] at hacc
    obtain ⟨r, hr⟩ := checkPng_walk f (wrap_eq_nil hacc)
    refine ⟨r, Or.inl ⟨hs, hr⟩, fun k n hk => ?_⟩
    exact cut_rejected cd f k n checkPng "PNG file: "
      (fun g hg hsig => checkFile_png cd g hg (by rw [hsig]; exact hs))
      (checkPng_error _ (walk_cut_fails pngWalk pngWalk_cases f r hr k n hk))
  · rw [checkFile_gif cd f h8 hs] at hacc
    obtain ⟨r, hr⟩ := checkGif_walk f (wrap_eq_nil hacc)
    refine ⟨r, Or.inr (Or.inl ⟨hs, hr⟩), fun k n hk => ?_⟩
    exact cut_rejected cd f k n checkGif "GIF file: "
      (fun g hg hsig => checkFile_gif cd g hg (by rw [hsig]; exact hs))
      (checkGif_error _ (walk_cut_fails gifWalk gifWalk_cases f r hr k n hk))
  · rw [checkFile_jpeg cd f h8 hs] at hacc
    obtain ⟨r, hr⟩ := toResult_eq_nil (wrap_eq_nil hacc)
    refine ⟨r, Or.inr (Or.inr ⟨hs, hr⟩), fun k n hk => ?_⟩
    exact cut_rejected cd f k n checkJpeg "JPEG file: "
      (fun g hg hsig => checkFile_jpeg cd g hg (by rw [hsig]; exact hs))
      (checkJpeg_error _ (walk_cut_fails jpegWalk jpegWalk_cases f r hr k n hk))

/-- C1, at the 20-byte PNG made of the signature and the `IEND` chunk. -/
theorem truncation_before_terminator_rejected_witness :
    ∃ r : List Byte,
      ((pngSignature.isPrefixOf ((pngSignature ++ endSignature).take 8) = true ∧
          pngWalk ⟨"a.png", pngSignature ++ endSignature⟩ = .stop r) ∨
       (gifSignature.isPrefixOf ((pngSignature ++ endSignature).take 8) = true ∧
          gifWalk ⟨"a.png", pngSignature ++ endSignature⟩ = .stop r) ∨
       (jpegSignature.isPrefixOf ((pngSignature ++ endSignature).take 8) = true ∧
          jpegWalk ⟨"a.png", pngSignature ++ endSignature⟩ = .stop r)) ∧
      ∀ (k : Nat) (n : String), k + r.length < (pngSignature ++ endSignature).length →
        ∃ m, Check noCodec ⟨n, (pngSignature ++ endSignature).take k⟩ = .error m :=
  truncation_before_terminator_rejected noCodec ⟨"a.png", pngSignature ++ endSignature⟩
    (by decide) (Or.inl (by decide))

/-! ## Minimal files -/

theorem lor_shift_eq (a b c d : Nat) (ha : a < 256) (hb : b < 256) (hc : c < 256) :
    a ||| b <<< 8 ||| c <<< 16 ||| d <<< 24 = a + 256 * b + 65536 * c + 16777216 * d := by
  have h1 : a ||| b <<< 8 = 2 ^ 8 * b + a := by
    rw [Nat.lor_comm, Nat.shiftLeft_eq, Nat.mul_comm]
    exact (Nat.mul_add_lt_is_or (i := 8) (by simpa using ha) b).symm
  have h2 : (2 ^ 8 * b + a) ||| c <<< 16 = 2 ^ 16 * c + (2 ^ 8 * b + a) := by
    rw [Nat.lor_comm, Nat.shiftLeft_eq, Nat.mul_comm]
    exact (Nat.mul_add_lt_is_or (i := 16) (by norm_num; omega) c).symm
  have h3 : (2 ^ 16 * c + (2 ^ 8 * b + a)) ||| d <<< 24 =
      2 ^ 24 * d + (2 ^ 16 * c + (2 ^ 8 * b + a)) := by
    rw [Nat.lor_comm, Nat.shiftLeft_eq, Nat.mul_comm]
    exact (Nat.mul_add_lt_is_or (i := 24) (by norm_num; omega) d).symm
  rw [h1, h2, h3]
  norm_num
  omega

/-- The value of `binary.LittleEndian.Uint32` on four bytes. -/
theorem leUint32_eq (b0 b1 b2 b3 : Byte) :
    leUint32 [b0, b1, b2, b3] = b0.val + 256 * b1.val + 65536 * b2.val + 16777216 * b3.val := by
  simp only [leUint32, at_, List.getD_cons_zero, List.getD_cons_succ]
  exact lor_shift_eq _ _ _ _ b0.isLt b1.isLt b2.isLt

theorem checkFile_swf (cd : Codecs) (n : String) (c v b4 b5 b6 b7 : Byte) (rest : List Byte)
    (hc : c = 0x46 ∨ c = 0x43 ∨ c = 0x5A) :
    checkFile cd ⟨n, c :: 0x57 :: 0x53 :: v :: b4 :: b5 :: b6 :: b7 :: rest⟩ =
      wrap "SWF file: "
        (checkSwf cd ⟨n, c :: 0x57 :: 0x53 :: v :: b4 :: b5 :: b6 :: b7 :: rest⟩) := by
  rw [checkFile_eq _ _ (by simp)]
  rcases hc with rfl | rfl | rfl <;> rfl

theorem seek_end_zero (f : File) : f.seek 0 .seekEnd = .ok f.data.length := by
  simp [File.seek]

theorem checkSwf_eq (cd : Codecs) (n : String) (c v b4 b5 b6 b7 : Byte) (rest : List Byte) :
    checkSwf cd ⟨n, c :: 0x57 :: 0x53 :: v :: b4 :: b5 :: b6 :: b7 :: rest⟩ =
      if c.val = 0x46 then
        if rest.length + 8 < leUint32 [b4, b5, b6, b7] then
          .error "file length is less than file size header"
        else .nil
      else if c.val = 0x43 then
        match cd.zlib rest with
        | .headerError e => .error ("parsing ZLIB compressed data signature: " ++ e)
        | .streamError e => .error ("decompressing ZLIB compressed data: " ++ e)
        | .bytes k =>
          if k + 8 < leUint32 [b4, b5, b6, b7] then
            .error "ZLIB-decompressed data length is less than file size header"
          else .nil
      else if c.val = 0x5A then
        match cd.lzma rest with
        | .headerError e => .error ("parsing LZMA compressed data signature: " ++ e)
        | .streamError e => .error ("decompressing LZMA compressed data: " ++ e)
        | .bytes k =>
          if k + 8 < leUint32 [b4, b5, b6, b7] then
            .error "LZMA-compressed data length is less than file size header"
          else .nil
      else .error "file has unknown compression type" := by
  have h0 := seek_start ⟨n, c :: 0x57 :: 0x53 :: v :: b4 :: b5 :: b6 :: b7 :: rest⟩ 0
  have h4 := seek_start ⟨n, c :: 0x57 :: 0x53 :: v :: b4 :: b5 :: b6 :: b7 :: rest⟩ 4
  simp only [Nat.cast_zero, Nat.cast_ofNat] at h0 h4
  simp only [checkSwf, h0, h4, seek_end_zero, File.readerAt]
  simp [readFull, at_]

theorem checkPng_eq (f : File) (h : 12 ≤ f.data.length) :
    checkPng f =
      if f.data.drop (f.data.length - 12) = endSignature then (pngWalk f).toResult
      else .error "file does not end with IEND block" := by
  have hs : f.seek (-(endSignature.length : Int)) .seekEnd = .ok (f.data.length - 12) := by
    have h1 : ¬ ((f.data.length : Int) + -12 < 0) := by omega
    have h2 : ((f.data.length : Int) + -12).toNat = f.data.length - 12 := by omega
    simp [File.seek, endSignature, h1, h2]
  have hr : readFull endSignature.length (f.data.drop (f.data.length - 12)) =
      .ok (f.data.drop (f.data.length - 12), []) := by
    have hl : (f.data.drop (f.data.length - 12)).length = 12 := by
      rw [List.length_drop]; omega
    have ht : List.take 12 (f.data.drop (f.data.length - 12)) =
        f.data.drop (f.data.length - 12) := List.take_of_length_le (by omega)
    have hd : List.drop 12 (f.data.drop (f.data.length - 12)) = [] :=
      List.drop_eq_nil_of_le (by omega)
    simp only [readFull, endSignature, List.length_cons, List.length_nil, hl]
    simp [ht, hd]
  simp only [checkPng, hs, File.readerAt, hr]
  by_cases he : f.data.drop (f.data.length - 12) = endSignature
  · simp [he]
  · simp [he]

theorem drop_length_sub_one (l : List Byte) (hne : l ≠ []) :
    l.drop (l.length - 1) = [l.getLast hne] := by
  obtain ⟨ys, a, rfl⟩ : ∃ ys a, l = ys ++ [a] :=
    ⟨l.dropLast, l.getLast hne, (List.dropLast_append_getLast hne).symm⟩
  simp

theorem checkGif_eq (f : File) (h : 1 ≤ f.data.length) :
    checkGif f =
      if f.data.getLast? = some 0x3B then (gifWalk f).toResult
      else .error "file does not end with GIF trailer" := by
  have hs : f.seek (-1) .seekEnd = .ok (f.data.length - 1) := by
    have h1 : ¬ ((f.data.length : Int) + -1 < 0) := by omega
    have h2 : ((f.data.length : Int) + -1).toNat = f.data.length - 1 := by omega
    simp [File.seek, h1, h2]
  have hne : f.data ≠ [] := by
    intro h0
    rw [h0] at h
    simp at h
  have hd : f.data.drop (f.data.length - 1) = [f.data.getLast hne] :=
    drop_length_sub_one f.data hne
  have hr : readFull 1 (f.data.drop (f.data.length - 1)) = .ok ([f.data.getLast hne], []) := by
    rw [hd]
    rfl
  simp only [checkGif, hs, File.readerAt, hr, at_, List.getD_cons_zero]
  rw [List.getLast?_eq_getLast _ hne]
  have h59 : ((0x3B : Byte) : Nat) = 0x3B := rfl
  by_cases he : f.data.getLast hne = 0x3B
  · simp [he, h59]
  · have he' : (f.data.getLast hne).val ≠ 0x3B := fun hv => he (Fin.ext hv)
    simp [he, he']

theorem checkJpeg_extended (n n' : String) (p suf : List Byte)
    (h : checkJpeg ⟨n, p⟩ = .nil) : checkJpeg ⟨n', p ++ suf⟩ = .nil := by
  obtain ⟨r, hr⟩ := toResult_eq_nil h
  rcases jpegWalk_cases n n' p suf with ⟨m, hm⟩ | ⟨r', -, hx⟩
  · rw [hm] at hr
    exact Walk.noConfusion hr
  · simp [checkJpeg, hx, Walk.toResult]

/-- C2, the part of the claim that fails: the 4-byte JPEG `FF D8 FF D9` is
shorter than the 8-byte signature `checkFile` reads first, so that `Check`
returns an error on it. -/
theorem minimal_jpeg_rejected :
    Check noCodec ⟨"a.jpg", [0xFF, 0xD8, 0xFF, 0xD9]⟩ =
        .error "reading file signature: unexpected EOF" ∧
      Check noCodec ⟨"a.jpg", [0xFF, 0xD8, 0xFF, 0xD9]⟩ ≠ .nil := by
  constructor
  · rfl
  · decide

/-- C2 as amended: the 20-byte PNG, every 14-byte GIF without global color
table and every 8-byte uncompressed SWF of declared size 8 pass `Check`; the
4-byte JPEG `FF D8 FF D9` passes the JPEG walker but not `Check`, which needs
8 bytes for the signature, and it passes `Check` once at least four more
bytes follow it. -/
theorem minimal_files_pass (cd : Codecs) (n : String) :
    Check cd ⟨n, pngSignature ++ endSignature⟩ = .nil ∧
    (∀ v1 v2 w0 w1 h0 h1 packed bg aspect : Byte, packed.val &&& 0b10000000 = 0 →
      Check cd ⟨n, gifSignature ++ [v1, v2, w0, w1, h0, h1, packed, bg, aspect, 0x3B]⟩ = .nil) ∧
    (∀ version : Byte, Check cd ⟨n, [0x46, 0x57, 0x53, version, 8, 0, 0, 0]⟩ = .nil) ∧
    checkJpeg ⟨n, [0xFF, 0xD8, 0xFF, 0xD9]⟩ = .nil ∧
    Check cd ⟨n, [0xFF, 0xD8, 0xFF, 0xD9]⟩ = .error "reading file signature: unexpected EOF" ∧
    (∀ (a b c d : Byte) (rest : List Byte),
      Check cd ⟨n, [0xFF, 0xD8, 0xFF, 0xD9] ++ a :: b :: c :: d :: rest⟩ = .nil) := by
  refine ⟨rfl, ?_, ?_, rfl, rfl, ?_⟩
  · intro v1 v2 w0 w1 h0 h1 packed bg aspect hp
    unfold Check
    rw [checkFile_gif cd
      ⟨n, gifSignature ++ [v1, v2, w0, w1, h0, h1, packed, bg, aspect, 0x3B]⟩
      (by simp [gifSignature]) rfl, checkGif_eq _ (by simp)]
    rw [if_pos (by simp [gifSignature]), gifWalk_eq]
    simp [gifSignature, readFull, discard, colorTable, hp, loop, gifBody, readByte,
      Walk.toResult, wrap]
  · intro version
    unfold Check
    rw [checkFile_swf cd n _ _ _ _ _ _ _ (Or.inl rfl), checkSwf_eq, leUint32_eq]
    rfl
  · intro a b c d rest
    unfold Check
    rw [checkFile_jpeg cd ⟨n, [0xFF, 0xD8, 0xFF, 0xD9] ++ a :: b :: c :: d :: rest⟩
        (by simp) (by simp [jpegSignature, List.isPrefixOf]),
      checkJpeg_extended n n [0xFF, 0xD8, 0xFF, 0xD9] (a :: b :: c :: d :: rest) rfl]
    rfl

/-- C2 as amended, at the GIF `GIF89a`, 1 by 1, no color table. -/
theorem minimal_files_pass_witness :
    (0 : Byte).val &&& 0b10000000 = 0 ∧
    Check noCodec
      ⟨"a.gif", gifSignature ++ [0x39, 0x61, 1, 0, 1, 0, 0, 0, 0, 0x3B]⟩ = .nil :=
  ⟨by decide, (minimal_files_pass noCodec "a.gif").2.1 0x39 0x61 1 0 1 0 0 0 0 (by decide)⟩

/-! ## Bytes appended after the terminator -/

theorem length_of_checkPng_nil (f : File) (h : checkPng f = .nil) : 12 ≤ f.data.length := by
  by_contra hlt
  have h1 : (f.data.length : Int) + -12 < 0 := by omega
  simp [checkPng, File.seek, endSignature, h1] at h

theorem file_eta (f : File) : (⟨f.name, f.data⟩ : File) = f := rfl

/-- C3, the claim as stated fails: the 20-byte PNG with a second `IEND` chunk
appended, and the 14-byte GIF with a second trailer byte appended, are both
accepted, although the appended bytes are not empty. -/
theorem appended_trailer_accepted :
    (Check noCodec ⟨"a.png", pngSignature ++ endSignature⟩ = .nil ∧
      endSignature ≠ [] ∧
      Check noCodec ⟨"a.png", (pngSignature ++ endSignature) ++ endSignature⟩ = .nil ∧
      Check noCodec ⟨"a.png", (pngSignature ++ endSignature) ++ endSignature⟩ ≠
        .error "PNG file: file does not end with IEND block") ∧
    (Check noCodec ⟨"a.gif", gifSignature ++ [0x39, 0x61, 1, 0, 1, 0, 0, 0, 0, 0x3B]⟩ = .nil ∧
      Check noCodec
        ⟨"a.gif", (gifSignature ++ [0x39, 0x61, 1, 0, 1, 0, 0, 0, 0, 0x3B]) ++ [0x3B]⟩ = .nil ∧
      Check noCodec
        ⟨"a.gif", (gifSignature ++ [0x39, 0x61, 1, 0, 1, 0, 0, 0, 0, 0x3B]) ++ [0x3B]⟩ ≠
        .error "GIF file: file does not end with GIF trailer") := by
  decide

/-- C3 as amended: when `Check` accepts a PNG or a GIF and bytes `g` are
appended to it, `Check` on the extended file returns the missing-terminator
error of the format unless the extended file itself ends with the terminator
(its last 12 bytes are the `IEND` chunk, its last byte is `0x3B`), and in that
case it accepts the extended file. -/
theorem appended_bytes_need_terminator (cd : Codecs) (f : File) (g : List Byte) (n : String)
    (hacc : Check cd f = .nil) :
    (pngSignature.isPrefixOf (f.data.take 8) = true →
      Check cd ⟨n, f.data ++ g⟩ =
        if (f.data ++ g).drop ((f.data ++ g).length - 12) = endSignature then .nil
        else .error "PNG file: file does not end with IEND block") ∧
    (gifSignature.isPrefixOf (f.data.take 8) = true →
      Check cd ⟨n, f.data ++ g⟩ =
        if (f.data ++ g).getLast? = some 0x3B then .nil
        else .error "GIF file: file does not end with GIF trailer") := by
  have h8 := length_of_checkFile_nil cd f hacc
  have hlen : 8 ≤ (f.data ++ g).length := by rw [List.length_append]; omega
  have hsig : (f.data ++ g).take 8 = f.data.take 8 := List.take_append_of_le_length h8
  unfold Check at hacc ⊢
  constructor
  · intro hs
    rw [checkFile_png cd f h8 hs] at hacc
    have hp := wrap_eq_nil hacc
    have h12 := length_of_checkPng_nil f hp
    obtain ⟨r, hr⟩ := checkPng_walk f hp
    have hx : pngWalk ⟨n, f.data ++ g⟩ = .stop (r ++ g) := by
      rcases pngWalk_cases f.name n f.data g with ⟨m, hm⟩ | ⟨r', hr', hx⟩
      · rw [file_eta, hr] at hm
        exact Walk.noConfusion hm
      · rw [file_eta, hr] at hr'
        simp only [Walk.stop.injEq] at hr'
        rw [hr']
        exact hx
    rw [checkFile_png cd ⟨n, f.data ++ g⟩ hlen (by rw [hsig]; exact hs),
      checkPng_eq ⟨n, f.data ++ g⟩ (by rw [List.length_append]; omega), hx]
    split <;> rfl
  · intro hs
    rw [checkFile_gif cd f h8 hs] at hacc
    have hp := wrap_eq_nil hacc
    obtain ⟨r, hr⟩ := checkGif_walk f hp
    have hx : gifWalk ⟨n, f.data ++ g⟩ = .stop (r ++ g) := by
      rcases gifWalk_cases f.name n f.data g with ⟨m, hm⟩ | ⟨r', hr', hx⟩
      · rw [file_eta, hr] at hm
        exact Walk.noConfusion hm
      · rw [file_eta, hr] at hr'
        simp only [Walk.stop.injEq] at hr'
        rw [hr']
        exact hx
    rw [checkFile_gif cd ⟨n, f.data ++ g⟩ hlen (by rw [hsig]; exact hs),
      checkGif_eq ⟨n, f.data ++ g⟩ (by rw [List.length_append]; omega), hx]
    split <;> rfl

/-- C3 as amended, at the 20-byte PNG followed by one zero byte. -/
theorem appended_bytes_need_terminator_witness :
    Check noCodec ⟨"b.png", (pngSignature ++ endSignature) ++ [0]⟩ =
      .error "PNG file: file does not end with IEND block" :=
  (appended_bytes_need_terminator noCodec ⟨"a.png", pngSignature ++ endSignature⟩ [0] "b.png"
    (by decide)).1 (by decide)

/-! ## JPEG restart markers -/

theorem loop_next {σ : Type} {body : σ → Step σ} {s s' : σ} (h : body s = .next s')
    (k : Nat) : loop body (k + 1) s = loop body k s' := by
  simp [loop, h]

theorem jpegBody_data (b : Byte) (hb : b ≠ 0xFF) (r : List Byte) :
    jpegBody (false, b :: r) = .next (false, r) := by
  by_cases h0 : b = 0x00 <;> simp [jpegBody, readByte, hb, h0]

theorem jpegBody_ff (ms : Bool) (r : List Byte) :
    jpegBody (ms, 0xFF :: r) = .next (true, r) := by
  simp [jpegBody, readByte]

theorem jpegBody_zero (ms : Bool) (r : List Byte) :
    jpegBody (ms, 0x00 :: r) = .next (false, r) := by
  simp [jpegBody, readByte]

theorem jpegBody_rst (m : Byte) (hm : 0xD0 ≤ m ∧ m ≤ 0xD8) (r : List Byte) :
    jpegBody (true, m :: r) = .next (false, r) := by
  obtain ⟨m, hlt⟩ := m
  have h1 : 0xD0 ≤ m := hm.1
  have h2 : m ≤ 0xD8 := hm.2
  have hFF : (⟨m, hlt⟩ : Byte) ≠ 0xFF := by
    intro h; have := congrArg Fin.val h; simp at this; omega
  have h00 : (⟨m, hlt⟩ : Byte) ≠ 0x00 := by
    intro h; have := congrArg Fin.val h; simp at this; omega
  have hD9 : (⟨m, hlt⟩ : Byte) ≠ 0xD9 := by
    intro h; have := congrArg Fin.val h; simp at this; omega
  have hr : (0xD0 : Byte) ≤ ⟨m, hlt⟩ ∧ (⟨m, hlt⟩ : Byte) < 0xD9 :=
    ⟨hm.1, show m < 0xD9 by omega⟩
  simp only [jpegBody, readByte, if_neg hFF, if_neg h00, if_neg hD9, if_pos hr, if_true]

theorem jpegBody_eoi (r : List Byte) : jpegBody (true, 0xD9 :: r) = .stop r := by
  simp [jpegBody, readByte]

/-- The walk goes over entropy-coded data in one iteration per byte and
leaves `markerStart` clear. -/
theorem entropy_run {d : List Byte} (h : EntropyCoded d) :
    ∀ (k : Nat) (rest : List Byte),
      loop jpegBody (d.length + k) (false, d ++ rest) = loop jpegBody k (false, rest) := by
  induction h with
  | nil => intro k rest; simp
  | byte b l hb _ ih =>
    intro k rest
    have hf : (b :: l).length + k = (l.length + k) + 1 := by simp; omega
    rw [hf, List.cons_append, loop_next (jpegBody_data b hb _), ih]
  | stuffed l _ ih =>
    intro k rest
    have hf : ((0xFF : Byte) :: 0x00 :: l).length + k = (l.length + k) + 1 + 1 := by
      simp; omega
    rw [hf, List.cons_append, List.cons_append, loop_next (jpegBody_ff _ _),
      loop_next (jpegBody_zero _ _), ih]

theorem restart_walk (d1 d2 : List Byte) (m : Byte) (h1 : EntropyCoded d1)
    (h2 : EntropyCoded d2) (hm : 0xD0 ≤ m ∧ m ≤ 0xD8) (n : String) :
    jpegWalk ⟨n, [0xFF, 0xD8] ++ d1 ++ [0xFF, m] ++ d2 ++ [0xFF, 0xD9]⟩ = .stop [] := by
  rw [jpegWalk_eq]
  have hf : ([0xFF, 0xD8] ++ d1 ++ [0xFF, m] ++ d2 ++ [0xFF, 0xD9] : List Byte).length + 1 =
      (d1.length + ((d2.length + 3) + 1 + 1)) + 1 + 1 := by
    simp only [List.length_append, List.length_cons, List.length_nil]
    omega
  rw [hf]
  simp only [List.append_assoc, List.cons_append, List.nil_append]
  rw [loop_next (jpegBody_ff _ _), loop_next (jpegBody_rst 0xD8 (by decide) _),
    entropy_run h1, loop_next (jpegBody_ff _ _), loop_next (jpegBody_rst m hm _),
    entropy_run h2, loop_next (jpegBody_ff _ _)]
  simp [loop, jpegBody_eoi]

/-- C4: a stream `FF D8`, entropy-coded data, a restart marker `FF m` with
`m` in `[0xD0, 0xD8]`, entropy-coded data, `FF D9`, of at least 8 bytes, is
accepted by `Check`; the walk stops right after the final `FF D9`, so that no
byte after the restart marker was taken for a length or a payload. -/
theorem restart_marker_accepted (cd : Codecs) (n : String) (d1 d2 : List Byte) (m : Byte)
    (h1 : EntropyCoded d1) (h2 : EntropyCoded d2) (hm : 0xD0 ≤ m ∧ m ≤ 0xD8)
    (hlen : 8 ≤ ([0xFF, 0xD8] ++ d1 ++ [0xFF, m] ++ d2 ++ [0xFF, 0xD9] : List Byte).length) :
    Check cd ⟨n, [0xFF, 0xD8] ++ d1 ++ [0xFF, m] ++ d2 ++ [0xFF, 0xD9]⟩ = .nil ∧
      jpegWalk ⟨n, [0xFF, 0xD8] ++ d1 ++ [0xFF, m] ++ d2 ++ [0xFF, 0xD9]⟩ = .stop [] := by
  refine ⟨?_, restart_walk d1 d2 m h1 h2 hm n⟩
  unfold Check
  rw [checkFile_jpeg cd ⟨n, [0xFF, 0xD8] ++ d1 ++ [0xFF, m] ++ d2 ++ [0xFF, 0xD9]⟩ hlen
    (by simp [jpegSignature, List.isPrefixOf])]
  rw [checkJpeg, restart_walk d1 d2 m h1 h2 hm n]
  rfl

/-- C4, at `FF D8 01 FF 00 FF D0 02 FF D9`. -/
theorem restart_marker_accepted_witness :
    Check noCodec
        ⟨"a.jpg", [0xFF, 0xD8] ++ [0x01, 0xFF, 0x00] ++ [0xFF, 0xD0] ++ [0x02] ++ [0xFF, 0xD9]⟩ =
        .nil ∧
      jpegWalk
        ⟨"a.jpg", [0xFF, 0xD8] ++ [0x01, 0xFF, 0x00] ++ [0xFF, 0xD0] ++ [0x02] ++ [0xFF, 0xD9]⟩ =
        .stop [] :=
  restart_marker_accepted noCodec "a.jpg" [0x01, 0xFF, 0x00] [0x02] 0xD0
    (.byte 0x01 _ (by decide) (.stuffed _ .nil)) (.byte 0x02 _ (by decide) .nil)
    (by decide) (by decide)

/-! ## SWF without compression -/

/-- C5: on a file of at least 8 bytes that starts with `F` `W` `S`, `Check`
succeeds exactly when the length of the file is at least the little-endian
integer in bytes 4..7, and otherwise fails with `SWF file: file length is
less than file size header`. -/
theorem swf_uncompressed_length (cd : Codecs) (n : String) (v b4 b5 b6 b7 : Byte)
    (rest : List Byte) :
    (Check cd ⟨n, swfFile 0x46 v b4 b5 b6 b7 rest⟩ = .nil ↔
      declaredSize b4 b5 b6 b7 ≤ (swfFile 0x46 v b4 b5 b6 b7 rest).length) ∧
    Check cd ⟨n, swfFile 0x46 v b4 b5 b6 b7 rest⟩ =
      if declaredSize b4 b5 b6 b7 ≤ (swfFile 0x46 v b4 b5 b6 b7 rest).length then .nil
      else .error "SWF file: file length is less than file size header" := by
  have hlen : (swfFile 0x46 v b4 b5 b6 b7 rest).length = rest.length + 8 := by
    simp [swfFile]
  have hval : ((0x46 : Byte) : Nat) = 0x46 := rfl
  have key : Check cd ⟨n, swfFile 0x46 v b4 b5 b6 b7 rest⟩ =
      if declaredSize b4 b5 b6 b7 ≤ rest.length + 8 then .nil
      else .error "SWF file: file length is less than file size header" := by
    unfold Check swfFile
    rw [checkFile_swf cd n _ _ _ _ _ _ _ (Or.inl rfl), checkSwf_eq, leUint32_eq, if_pos hval]
    by_cases h : declaredSize b4 b5 b6 b7 ≤ rest.length + 8
    · have h' : ¬ rest.length + 8 < declaredSize b4 b5 b6 b7 := by omega
      rw [if_pos h]
      unfold declaredSize at h'
      rw [if_neg h']
      rfl
    · have h' : rest.length + 8 < declaredSize b4 b5 b6 b7 := by omega
      rw [if_neg h]
      unfold declaredSize at h'
      rw [if_pos h']
      rfl
  rw [hlen]
  refine ⟨?_, key⟩
  rw [key]
  split
  · simp [*]
  · simp [*]

/-! ## Unknown and short signatures -/

theorem isPrefixOf_iff_take (l : List Byte) :
    ∀ s : List Byte, l.isPrefixOf s = true ↔ s.take l.length = l := by
  induction l with
  | nil => intro s; simp [List.isPrefixOf]
  | cons a l ih =>
    intro s
    cases s with
    | nil => simp [List.isPrefixOf]
    | cons b t =>
      simp only [List.isPrefixOf, Bool.and_eq_true, beq_iff_eq, List.length_cons,
        List.take_succ_cons, List.cons.injEq, ih t]
      constructor
      · rintro ⟨rfl, h⟩; exact ⟨rfl, h⟩
      · rintro ⟨rfl, h⟩; exact ⟨rfl, h⟩

/-- C6: a file of at least 8 bytes whose first 8 bytes are not the PNG
signature, whose first 4 bytes are not `GIF8`, whose first 2 bytes are not
`FF D8` and whose bytes 1..2 are not `W` `S` is rejected with `unknown image
file format`, the error of the dispatcher itself. -/
theorem unknown_format_rejected (cd : Codecs) (f : File) (h8 : 8 ≤ f.data.length)
    (hpng : f.data.take 8 ≠ pngSignature) (hgif : f.data.take 4 ≠ gifSignature)
    (hjpeg : f.data.take 2 ≠ jpegSignature) (hswf : (f.data.drop 1).take 2 ≠ swfSignature) :
    Check cd f = .error "unknown image file format" := by
  have h1 : ¬ pngSignature.isPrefixOf (f.data.take 8) = true := by
    rw [isPrefixOf_iff_take, List.take_take]
    exact hpng
  have h2 : ¬ gifSignature.isPrefixOf (f.data.take 8) = true := by
    rw [isPrefixOf_iff_take, List.take_take]
    exact hgif
  have h3 : ¬ jpegSignature.isPrefixOf (f.data.take 8) = true := by
    rw [isPrefixOf_iff_take, List.take_take]
    exact hjpeg
  have h4 : ¬ swfSignature.isPrefixOf ((f.data.take 8).drop 1) = true := by
    rw [isPrefixOf_iff_take, List.drop_take, List.take_take]
    exact hswf
  unfold Check
  rw [checkFile_eq cd f h8, if_neg h1, if_neg h2, if_neg h3, if_neg h4]

/-- C6, at the file of 8 zero bytes. -/
theorem unknown_format_rejected_witness :
    Check noCodec ⟨"zeros", [0, 0, 0, 0, 0, 0, 0, 0]⟩ = .error "unknown image file format" :=
  unknown_format_rejected noCodec ⟨"zeros", [0, 0, 0, 0, 0, 0, 0, 0]⟩ (by decide) (by decide)
    (by decide) (by decide) (by decide)

/-- C7: on a file shorter than 8 bytes `Check` fails with `reading file
signature: ` followed by the cause (`EOF` for the empty file, `unexpected
EOF` otherwise), which is the error of the signature read that precedes every
walker. -/
theorem short_file_rejected (cd : Codecs) (f : File) (h : f.data.length < 8) :
    Check cd f =
      .error ("reading file signature: " ++
        if f.data.length = 0 then "EOF" else "unexpected EOF") := by
  have h' : ¬ 8 ≤ f.data.length := by omega
  by_cases h0 : f.data.length = 0
  · simp [Check, checkFile, File.readerAt, readFull, h', h0]
  · simp [Check, checkFile, File.readerAt, readFull, h', h0]

/-- C7, at the first four bytes of the PNG signature. -/
theorem short_file_rejected_witness :
    Check noCodec ⟨"cut.png", [0x89, 0x50, 0x4E, 0x47]⟩ =
      .error ("reading file signature: " ++
        if ([0x89, 0x50, 0x4E, 0x47] : List Byte).length = 0 then "EOF"
        else "unexpected EOF") :=
  short_file_rejected noCodec ⟨"cut.png", [0x89, 0x50, 0x4E, 0x47]⟩ (by decide)

/-! ## The four signatures and the walker each selects -/

theorem png_not_swf (s : List Byte) (h : pngSignature.isPrefixOf s = true) :
    swfSignature.isPrefixOf (s.drop 1) = false := by
  obtain ⟨t, rfl, h'⟩ := (isPrefixOf_cons_iff _ _ _).1 h
  obtain ⟨t', rfl, -⟩ := (isPrefixOf_cons_iff _ _ _).1 h'
  rfl

theorem gif_not_swf (s : List Byte) (h : gifSignature.isPrefixOf s = true) :
    swfSignature.isPrefixOf (s.drop 1) = false := by
  obtain ⟨t, rfl, h'⟩ := (isPrefixOf_cons_iff _ _ _).1 h
  obtain ⟨t', rfl, -⟩ := (isPrefixOf_cons_iff _ _ _).1 h'
  rfl

theorem jpeg_not_swf (s : List Byte) (h : jpegSignature.isPrefixOf s = true) :
    swfSignature.isPrefixOf (s.drop 1) = false := by
  obtain ⟨t, rfl, h'⟩ := (isPrefixOf_cons_iff _ _ _).1 h
  obtain ⟨t', rfl, -⟩ := (isPrefixOf_cons_iff _ _ _).1 h'
  rfl

theorem wrap_eq_nil_iff (c : String) (x : Result) : wrap c x = .nil ↔ x = .nil := by
  cases x <;> simp [wrap]

theorem dispatches_of_eq (cd : Codecs) (f : File) (check : File → Result) (name : String)
    (h : checkFile cd f = wrap name (check f)) : Dispatches cd f check name := by
  refine ⟨?_, fun m hm => ?_⟩
  · rw [h, wrap_eq_nil_iff]
  · rw [h, hm]
    rfl

theorem checkFile_swf_sig (cd : Codecs) (f : File) (h : 8 ≤ f.data.length)
    (hs : swfSignature.isPrefixOf ((f.data.take 8).drop 1) = true) :
    checkFile cd f = wrap "SWF file: " (checkSwf cd f) := by
  have h1 : ¬ pngSignature.isPrefixOf (f.data.take 8) = true := by
    intro hp
    rw [png_not_swf _ hp] at hs
    exact Bool.noConfusion hs
  have h2 : ¬ gifSignature.isPrefixOf (f.data.take 8) = true := by
    intro hp
    rw [gif_not_swf _ hp] at hs
    exact Bool.noConfusion hs
  have h3 : ¬ jpegSignature.isPrefixOf (f.data.take 8) = true := by
    intro hp
    rw [jpeg_not_swf _ hp] at hs
    exact Bool.noConfusion hs
  rw [checkFile_eq cd f h, if_neg h1, if_neg h2, if_neg h3, if_pos hs]

/-- C8: no byte sequence matches two of the four magic patterns, and on a
file of at least 8 bytes whose signature matches the pattern of a format,
`checkFile` succeeds exactly when the walker of that format succeeds and
returns the walker's error with `<FORMAT> file: ` in front of its message. -/
theorem signatures_disjoint_and_dispatch (cd : Codecs) :
    (∀ s : List Byte,
      ¬ (pngSignature.isPrefixOf s = true ∧ gifSignature.isPrefixOf s = true) ∧
      ¬ (pngSignature.isPrefixOf s = true ∧ jpegSignature.isPrefixOf s = true) ∧
      ¬ (pngSignature.isPrefixOf s = true ∧ swfSignature.isPrefixOf (s.drop 1) = true) ∧
      ¬ (gifSignature.isPrefixOf s = true ∧ jpegSignature.isPrefixOf s = true) ∧
      ¬ (gifSignature.isPrefixOf s = true ∧ swfSignature.isPrefixOf (s.drop 1) = true) ∧
      ¬ (jpegSignature.isPrefixOf s = true ∧ swfSignature.isPrefixOf (s.drop 1) = true)) ∧
    (∀ f : File, 8 ≤ f.data.length →
      (pngSignature.isPrefixOf (f.data.take 8) = true →
        Dispatches cd f checkPng "PNG file: ") ∧
      (gifSignature.isPrefixOf (f.data.take 8) = true →
        Dispatches cd f checkGif "GIF file: ") ∧
      (jpegSignature.isPrefixOf (f.data.take 8) = true →
        Dispatches cd f checkJpeg "JPEG file: ") ∧
      (swfSignature.isPrefixOf ((f.data.take 8).drop 1) = true →
        Dispatches cd f (checkSwf cd) "SWF file: ")) := by
  constructor
  · intro s
    refine ⟨?_, ?_, ?_, ?_, ?_, ?_⟩
    · rintro ⟨h1, h2⟩
      rw [png_not_gif s h1] at h2
      exact Bool.noConfusion h2
    · rintro ⟨h1, h2⟩
      rw [png_not_jpeg s h1] at h2
      exact Bool.noConfusion h2
    · rintro ⟨h1, h2⟩
      rw [png_not_swf s h1] at h2
      exact Bool.noConfusion h2
    · rintro ⟨h1, h2⟩
      rw [gif_not_jpeg s h1] at h2
      exact Bool.noConfusion h2
    · rintro ⟨h1, h2⟩
      rw [gif_not_swf s h1] at h2
      exact Bool.noConfusion h2
    · rintro ⟨h1, h2⟩
      rw [jpeg_not_swf s h1] at h2
      exact Bool.noConfusion h2
  · intro f h8
    exact ⟨fun hs => dispatches_of_eq cd f checkPng _ (checkFile_png cd f h8 hs),
      fun hs => dispatches_of_eq cd f checkGif _ (checkFile_gif cd f h8 hs),
      fun hs => dispatches_of_eq cd f checkJpeg _ (checkFile_jpeg cd f h8 hs),
      fun hs => dispatches_of_eq cd f (checkSwf cd) _ (checkFile_swf_sig cd f h8 hs)⟩

/-- C8, at a 12-byte file with the PNG signature and four more bytes, on
which the PNG walker fails. -/
theorem signatures_disjoint_and_dispatch_witness :
    Dispatches noCodec ⟨"a.png", pngSignature ++ [0, 0, 0, 0]⟩ checkPng "PNG file: " ∧
      checkFile noCodec ⟨"a.png", pngSignature ++ [0, 0, 0, 0]⟩ =
        .error "PNG file: file does not end with IEND block" :=
  ⟨((signatures_disjoint_and_dispatch noCodec).2 ⟨"a.png", pngSignature ++ [0, 0, 0, 0]⟩
      (by decide)).1 (by decide),
    (((signatures_disjoint_and_dispatch noCodec).2 ⟨"a.png", pngSignature ++ [0, 0, 0, 0]⟩
      (by decide)).1 (by decide)).2 _ (by decide)⟩

/-! ## SWF with a compressed body -/

/-- C9: on a file of at least 8 bytes that starts with `C` `W` `S` or with
`Z` `W` `S`, with `out` what the decompressor of that compression type (zlib
for `C`, LZMA for `Z`) gives on the bytes from offset 8 on: `Check` fails when
`out` is an error, and when `out` is a count of `k` bytes `Check` succeeds
exactly when `k + 8` is at least the little-endian integer in bytes 4..7, and
fails otherwise. -/
theorem swf_compressed_length (cd : Codecs) (n : String) (c v b4 b5 b6 b7 : Byte)
    (rest : List Byte) (out : Inflate)
    (hc : (c = 0x43 ∧ cd.zlib rest = out) ∨ (c = 0x5A ∧ cd.lzma rest = out)) :
    (∀ e, out = .headerError e ∨ out = .streamError e →
      ∃ m, Check cd ⟨n, swfFile c v b4 b5 b6 b7 rest⟩ = .error m) ∧
    (∀ k, out = .bytes k →
      (Check cd ⟨n, swfFile c v b4 b5 b6 b7 rest⟩ = .nil ↔
        declaredSize b4 b5 b6 b7 ≤ k + 8) ∧
      (¬ declaredSize b4 b5 b6 b7 ≤ k + 8 →
        ∃ m, Check cd ⟨n, swfFile c v b4 b5 b6 b7 rest⟩ = .error m)) := by
  have h43 : ((0x43 : Byte) : Nat) = 0x43 := rfl
  have h5A : ((0x5A : Byte) : Nat) = 0x5A := rfl
  have hsize : leUint32 [b4, b5, b6, b7] = declaredSize b4 b5 b6 b7 := leUint32_eq _ _ _ _
  unfold Check swfFile
  rcases hc with ⟨rfl, hz⟩ | ⟨rfl, hz⟩
  · rw [checkFile_swf cd n _ _ _ _ _ _ _ (Or.inr (Or.inl rfl)), checkSwf_eq, hsize,
      if_neg (by rw [h43]; decide), if_pos h43, hz]
    refine ⟨?_, ?_⟩
    · rintro e (rfl | rfl) <;> exact ⟨_, rfl⟩
    · rintro k rfl
      by_cases h : k + 8 < declaredSize b4 b5 b6 b7
      · dsimp only
        rw [if_pos h]
        exact ⟨⟨fun hx => Result.noConfusion hx, fun hx => absurd hx (by omega)⟩,
          fun _ => ⟨_, rfl⟩⟩
      · dsimp only
        rw [if_neg h]
        exact ⟨⟨fun _ => by omega, fun _ => rfl⟩, fun hx => absurd hx (by omega)⟩
  · rw [checkFile_swf cd n _ _ _ _ _ _ _ (Or.inr (Or.inr rfl)), checkSwf_eq, hsize,
      if_neg (by rw [h5A]; decide), if_neg (by rw [h5A]; decide), if_pos h5A, hz]
    refine ⟨?_, ?_⟩
    · rintro e (rfl | rfl) <;> exact ⟨_, rfl⟩
    · rintro k rfl
      by_cases h : k + 8 < declaredSize b4 b5 b6 b7
      · dsimp only
        rw [if_pos h]
        exact ⟨⟨fun hx => Result.noConfusion hx, fun hx => absurd hx (by omega)⟩,
          fun _ => ⟨_, rfl⟩⟩
      · dsimp only
        rw [if_neg h]
        exact ⟨⟨fun _ => by omega, fun _ => rfl⟩, fun hx => absurd hx (by omega)⟩

/-- C9, at `C` `W` `S`, version 9, declared size 9 and two more bytes, with a
zlib decompressor that yields 0 bytes: 0 + 8 is less than 9, and `Check` does
not succeed. -/
theorem swf_compressed_length_witness :
    ¬ (Check ⟨fun _ => .bytes 0, fun _ => .headerError "invalid header"⟩
        ⟨"a.swf", swfFile 0x43 9 9 0 0 0 [0x78, 0x9C]⟩ = .nil) :=
  fun hx => absurd
    (((swf_compressed_length ⟨fun _ => .bytes 0, fun _ => .headerError "invalid header"⟩
      "a.swf" 0x43 9 9 0 0 0 [0x78, 0x9C] (.bytes 0) (Or.inl ⟨rfl, rfl⟩)).2 0 rfl).1.1 hx)
    (by decide)

/-! ## The error of a chunk walk that runs off the end -/

/-- C10: the file made of the PNG signature, the chunk `00 00 00 08 abcd`
whose 12 bytes of data and CRC are the `IEND` chunk itself, starts with the
PNG signature and ends with the 12-byte `IEND` trailer, and `Check` fails on
it with exactly `PNG file: reading block size: EOF`: the walk skips the
trailer as the data of the chunk `abcd` and meets the end of the file at the
next chunk boundary. -/
theorem png_walk_eof_at_boundary (cd : Codecs) (n : String) :
    pngSignature.isPrefixOf
        (pngSignature ++ [0x00, 0x00, 0x00, 0x08, 0x61, 0x62, 0x63, 0x64] ++ endSignature) =
        true ∧
      (pngSignature ++ [0x00, 0x00, 0x00, 0x08, 0x61, 0x62, 0x63, 0x64] ++ endSignature).drop
          ((pngSignature ++ [0x00, 0x00, 0x00, 0x08, 0x61, 0x62, 0x63, 0x64] ++
            endSignature).length - 12) = endSignature ∧
      Check cd
          ⟨n, pngSignature ++ [0x00, 0x00, 0x00, 0x08, 0x61, 0x62, 0x63, 0x64] ++
            endSignature⟩ =
        .error "PNG file: reading block size: EOF" ∧
      pngBody ([0x00, 0x00, 0x00, 0x08, 0x61, 0x62, 0x63, 0x64] ++ endSignature) =
        .next [] := by
  refine ⟨by decide, by decide, ?_, by decide⟩
  unfold Check
  rw [checkFile_png cd
      ⟨n, pngSignature ++ [0x00, 0x00, 0x00, 0x08, 0x61, 0x62, 0x63, 0x64] ++ endSignature⟩
      (by simp [pngSignature, endSignature]) (by simp only []; decide),
    checkPng_eq _ (by simp [pngSignature, endSignature]), pngWalk_eq]
  simp only []
  decide

/-! ## GIF image blocks -/

/-- C11: the GIF of the claim (signature `GIF89a`, a logical screen
descriptor without global color table, an image descriptor with packed byte
`00`, LZW minimum code size `02`, the sub-block `02 4C 01`, the terminator
`00` and the trailer `3B`) is rejected.  After the block type `2C` the walk
discards 8 bytes and 1 more, which is the packed byte of the descriptor, so
that the sub-block loop starts on the LZW minimum code size and takes it for
a sub-block size; it ends up reading the trailer `3B` as a size of 59. -/
theorem minimal_gif_image_rejected :
    Check noCodec
        ⟨"a.gif", gifSignature ++ [0x39, 0x61, 1, 0, 1, 0, 0x00, 0, 0,
          0x2C, 0, 0, 0, 0, 1, 0, 1, 0, 0x00, 0x02, 0x02, 0x4C, 0x01, 0x00, 0x3B]⟩ =
        .error "GIF file: skipping sub-block data: EOF" ∧
      gifBody 0x00
          (.block [0x2C, 0, 0, 0, 0, 1, 0, 1, 0, 0x00, 0x02, 0x02, 0x4C, 0x01, 0x00, 0x3B]) =
        .next (.subBlock [0x02, 0x02, 0x4C, 0x01, 0x00, 0x3B]) := by
  decide

/-- C14: the walk takes the decision on a local color table from the packed
byte read at offset 10, not from the packed byte of the image descriptor,
which it discards unread.  With the header byte `00` and the descriptor byte
`80` it skips no table and starts the sub-block loop on the 6 bytes of the
table (the file is rejected); with the header byte `80` and the descriptor
byte `00` it skips 6 bytes that are not a table. -/
theorem gif_local_table_from_header_byte :
    gifBody 0x00
        (.block [0x2C, 0, 0, 0, 0, 1, 0, 1, 0, 0x80, 0xFF, 0xFF, 0xFF, 0, 0, 0, 0x00, 0x3B]) =
      .next (.subBlock [0xFF, 0xFF, 0xFF, 0, 0, 0, 0x00, 0x3B]) ∧
    Check noCodec
        ⟨"a.gif", gifSignature ++ [0x39, 0x61, 1, 0, 1, 0, 0x00, 0, 0,
          0x2C, 0, 0, 0, 0, 1, 0, 1, 0, 0x80, 0xFF, 0xFF, 0xFF, 0, 0, 0, 0x00, 0x3B]⟩ =
      .error "GIF file: skipping sub-block data: EOF" ∧
    gifBody 0x80
        (.block [0x2C, 0, 0, 0, 0, 1, 0, 1, 0, 0x00, 1, 2, 3, 4, 5, 6, 0x00, 0x3B]) =
      .next (.subBlock [0x00, 0x3B]) := by
  decide

/-! ## JPEG segments -/

/-- C13: the stream `FF D8 FF E0 00 02 FF D9` of the claim is rejected.
After the two length bytes `00 02` of the segment the walk discards 2 more
bytes, the whole of the length and not the length less 2, and these are the
bytes `FF D9`; the next read meets the end of the file. -/
theorem jpeg_segment_length_discarded_in_full :
    Check noCodec ⟨"a.jpg", [0xFF, 0xD8, 0xFF, 0xE0, 0x00, 0x02, 0xFF, 0xD9]⟩ =
        .error "JPEG file: reading marker start or entropy-coded data: EOF" ∧
      jpegBody (true, [0xE0, 0x00, 0x02, 0xFF, 0xD9]) = .next (false, []) := by
  decide

/-! ## The GIF trailer byte -/

/-- C17: a file of at least 8 bytes that starts with `47 49 46 38` and whose
last byte is not `0x3B` is rejected with `GIF file: file does not end with
GIF trailer`, whatever else it contains. -/
theorem gif_without_trailer_rejected (cd : Codecs) (f : File) (h8 : 8 ≤ f.data.length)
    (hs : f.data.take 4 = gifSignature) (hlast : f.data.getLast? ≠ some 0x3B) :
    Check cd f = .error "GIF file: file does not end with GIF trailer" := by
  have hsig : gifSignature.isPrefixOf (f.data.take 8) = true := by
    rw [isPrefixOf_iff_take, List.take_take]
    exact hs
  unfold Check
  rw [checkFile_gif cd f h8 hsig, checkGif_eq f (by omega), if_neg hlast]
  rfl

/-- C17, at the 14-byte GIF followed by a zero byte: the forward walk would
stop at the `0x3B` at offset 13. -/
theorem gif_without_trailer_rejected_witness :
    Check noCodec ⟨"a.gif", gifSignature ++ [0x39, 0x61, 1, 0, 1, 0, 0, 0, 0, 0x3B, 0x00]⟩ =
        .error "GIF file: file does not end with GIF trailer" ∧
      gifWalk ⟨"a.gif", gifSignature ++ [0x39, 0x61, 1, 0, 1, 0, 0, 0, 0, 0x3B, 0x00]⟩ =
        .stop [0x00] :=
  ⟨gif_without_trailer_rejected noCodec
      ⟨"a.gif", gifSignature ++ [0x39, 0x61, 1, 0, 1, 0, 0, 0, 0, 0x3B, 0x00]⟩
      (by decide) (by decide) (by decide),
    by decide⟩

/-! ## SWF compression byte -/

/-- C18: a file of at least 8 bytes whose bytes 1..2 are `W` `S` and whose
byte 0 is none of `F`, `C`, `Z` is rejected with `SWF file: file has unknown
compression type`, whatever its size header and its length. -/
theorem swf_unknown_compression (cd : Codecs) (n : String) (c v b4 b5 b6 b7 : Byte)
    (rest : List Byte) (hF : c ≠ 0x46) (hC : c ≠ 0x43) (hZ : c ≠ 0x5A) :
    Check cd ⟨n, swfFile c v b4 b5 b6 b7 rest⟩ =
      .error "SWF file: file has unknown compression type" := by
  have h1 : ¬ c.val = 0x46 := fun h => hF (Fin.ext h)
  have h2 : ¬ c.val = 0x43 := fun h => hC (Fin.ext h)
  have h3 : ¬ c.val = 0x5A := fun h => hZ (Fin.ext h)
  unfold Check swfFile
  rw [checkFile_swf_sig cd _ (by simp) (by simp [swfSignature, List.isPrefixOf]),
    checkSwf_eq, if_neg h1, if_neg h2, if_neg h3]
  rfl

/-- C18, at `X` `W` `S` followed by five zero bytes. -/
theorem swf_unknown_compression_witness :
    Check noCodec ⟨"a.swf", swfFile 0x58 0 0 0 0 0 []⟩ =
      .error "SWF file: file has unknown compression type" :=
  swf_unknown_compression noCodec "a.swf" 0x58 0 0 0 0 0 [] (by decide) (by decide)
    (by decide)

/-! ## Appending to an accepted JPEG or uncompressed SWF -/

theorem check_swf_uncompressed (cd : Codecs) (n : String) (v b4 b5 b6 b7 : Byte)
    (rest : List Byte) :
    Check cd ⟨n, swfFile 0x46 v b4 b5 b6 b7 rest⟩ =
      if rest.length + 8 < declaredSize b4 b5 b6 b7 then
        .error "SWF file: file length is less than file size header"
      else .nil := by
  have hval : ((0x46 : Byte) : Nat) = 0x46 := rfl
  unfold Check swfFile
  rw [checkFile_swf cd n _ _ _ _ _ _ _ (Or.inl rfl), checkSwf_eq, leUint32_eq, if_pos hval]
  unfold declaredSize
  split <;> rfl

/-- C20: when `Check` accepts a file with the JPEG signature, or a file that
starts with `F` `W` `S`, it accepts every file made of it and of further
bytes appended. -/
theorem accepted_stays_accepted_when_extended (cd : Codecs) (f : File) (g : List Byte)
    (n : String) (hacc : Check cd f = .nil)
    (hfmt : jpegSignature.isPrefixOf (f.data.take 8) = true ∨
      ∃ v b4 b5 b6 b7 rest, f.data = swfFile 0x46 v b4 b5 b6 b7 rest) :
    Check cd ⟨n, f.data ++ g⟩ = .nil := by
  rcases hfmt with hs | ⟨v, b4, b5, b6, b7, rest, hd⟩
  · have h8 := length_of_checkFile_nil cd f hacc
    have hlen : 8 ≤ (f.data ++ g).length := by rw [List.length_append]; omega
    have hsig : (f.data ++ g).take 8 = f.data.take 8 := List.take_append_of_le_length h8
    unfold Check at hacc ⊢
    rw [checkFile_jpeg cd f h8 hs] at hacc
    have hj : checkJpeg ⟨f.name, f.data⟩ = .nil := wrap_eq_nil hacc
    rw [checkFile_jpeg cd ⟨n, f.data ++ g⟩ hlen (by rw [hsig]; exact hs),
      checkJpeg_extended f.name n f.data g hj]
    rfl
  · obtain ⟨name, data⟩ := f
    simp only at hd
    subst hd
    rw [check_swf_uncompressed] at hacc
    have hx : swfFile 0x46 v b4 b5 b6 b7 rest ++ g = swfFile 0x46 v b4 b5 b6 b7 (rest ++ g) := rfl
    simp only [hx]
    rw [check_swf_uncompressed]
    by_cases h : rest.length + 8 < declaredSize b4 b5 b6 b7
    · rw [if_pos h] at hacc
      exact Result.noConfusion hacc
    · rw [if_neg (by rw [List.length_append]; omega)]

/-- C20, at the JPEG `FF D8 00 00 00 00 FF D9` with two bytes appended. -/
theorem accepted_stays_accepted_when_extended_witness :
    Check noCodec ⟨"b.jpg", [0xFF, 0xD8, 0, 0, 0, 0, 0xFF, 0xD9] ++ [0x12, 0x34]⟩ = .nil :=
  accepted_stays_accepted_when_extended noCodec
    ⟨"a.jpg", [0xFF, 0xD8, 0, 0, 0, 0, 0xFF, 0xD9]⟩ [0x12, 0x34] "b.jpg" (by decide)
    (Or.inl (by decide))

/-! ## The JPEG walk stops only after `FF D9` -/

/-- A walk that stops with `r` unread started on bytes that hold `FF D9` right
before `r`, or started with `markerStart` set on the byte `D9` itself. -/
theorem jpeg_stop_after_eoi :
    ∀ (n : Nat) (ms : Bool) (rest r : List Byte), loop jpegBody n (ms, rest) = .stop r →
      (∃ pre, rest = pre ++ 0xFF :: 0xD9 :: r) ∨ (ms = true ∧ rest = 0xD9 :: r) := by
  intro n
  induction n with
  | zero => intro ms rest r h; exact Walk.noConfusion h
  | succ n ih =>
    intro ms rest r h
    have hfalse : ∀ t : List Byte, loop jpegBody n (false, t) = .stop r →
        ∃ pre, t = pre ++ 0xFF :: 0xD9 :: r := by
      intro t ht
      rcases ih false t r ht with hpre | ⟨hms, -⟩
      · exact hpre
      · exact Bool.noConfusion hms
    cases rest with
    | nil => simp [loop, jpegBody, readByte] at h
    | cons b t =>
      by_cases h1 : b = 0xFF
      · subst h1
        rw [loop_next (jpegBody_ff ms t)] at h
        rcases ih true t r h with ⟨pre, hpre⟩ | ⟨-, ht⟩
        · exact Or.inl ⟨0xFF :: pre, by rw [hpre]; rfl⟩
        · exact Or.inl ⟨[], by rw [ht]; rfl⟩
      by_cases h2 : b = 0x00
      · subst h2
        rw [loop_next (jpegBody_zero ms t)] at h
        obtain ⟨pre, hpre⟩ := hfalse t h
        exact Or.inl ⟨0x00 :: pre, by rw [hpre]; rfl⟩
      cases ms with
      | false =>
        rw [loop_next (jpegBody_data b h1 t)] at h
        obtain ⟨pre, hpre⟩ := hfalse t h
        exact Or.inl ⟨b :: pre, by rw [hpre]; rfl⟩
      | true =>
        by_cases h3 : b = 0xD9
        · subst h3
          simp only [loop, jpegBody_eoi, Walk.stop.injEq] at h
          exact Or.inr ⟨rfl, by rw [h]⟩
        by_cases h4 : 0xD0 ≤ b ∧ b < 0xD9
        · have hb : jpegBody (true, b :: t) = .next (false, t) := by
            simp [jpegBody, readByte, h1, h2, h3, h4]
          rw [loop_next hb] at h
          obtain ⟨pre, hpre⟩ := hfalse t h
          exact Or.inl ⟨b :: pre, by rw [hpre]; rfl⟩
        · have hb : jpegBody (true, b :: t) =
              match readFull 2 t with
              | .error e => .fail ("reading marker size: " ++ e)
              | .ok (buf, q) =>
                match discard (beUint16 buf) q with
                | .error e => .fail ("skipping marker data: " ++ e)
                | .ok q' => .next (false, q') := by
            simp [jpegBody, readByte, h1, h2, h3, h4]
          simp only [loop, hb] at h
          cases hrf : readFull 2 t with
          | error e => rw [hrf] at h; exact Walk.noConfusion h
          | ok v =>
            obtain ⟨buf, q⟩ := v
            rw [hrf] at h
            simp only at h
            cases hd : discard (beUint16 buf) q with
            | error e => rw [hd] at h; exact Walk.noConfusion h
            | ok q' =>
              rw [hd] at h
              simp only at h
              obtain ⟨pre, hpre⟩ := hfalse q' h
              obtain ⟨-, -, hq⟩ := readFull_ok hrf
              obtain ⟨-, hq'⟩ := discard_ok hd
              refine Or.inl ⟨b :: (t.take 2 ++ (q.take (beUint16 buf) ++ pre)), ?_⟩
              have e1 : t = t.take 2 ++ q := by rw [hq, List.take_append_drop]
              have e2 : q = q.take (beUint16 buf) ++ q' := by
                rw [hq', List.take_append_drop]
              rw [hpre] at e2
              conv_lhs => rw [e1, e2]
              simp

theorem readFull_error {n : Nat} {r : List Byte} {e : String} (h : readFull n r = .error e) :
    e = "EOF" ∨ e = "unexpected EOF" := by
  unfold readFull at h
  split at h
  · exact Except.noConfusion h
  · split at h
    · simp only [Except.error.injEq] at h; exact Or.inl h.symm
    · simp only [Except.error.injEq] at h; exact Or.inr h.symm

theorem discard_error {n : Nat} {r : List Byte} {e : String} (h : discard n r = .error e) :
    e = "EOF" := by
  unfold discard at h
  split at h
  · exact Except.noConfusion h
  · simp only [Except.error.injEq] at h; exact h.symm

theorem jpegWalk_ne_unfinished (f : File) : jpegWalk f ≠ .unfinished := by
  rw [jpegWalk_eq]
  exact loop_total jpegBody (fun s => s.2.length) jpegBody_decreases _ _ (Nat.lt_succ_self _)

theorem loop_fail_step {σ : Type} (body : σ → Step σ) :
    ∀ (n : Nat) (s : σ) (m : String), loop body n s = .fail m → ∃ s', body s' = .fail m := by
  intro n
  induction n with
  | zero => intro s m h; exact Walk.noConfusion h
  | succ n ih =>
    intro s m h
    simp only [loop] at h
    cases hb : body s with
    | next s' => rw [hb] at h; exact ih s' m h
    | stop r => rw [hb] at h; exact Walk.noConfusion h
    | fail m' =>
      rw [hb] at h
      simp only [Walk.fail.injEq] at h
      exact ⟨s, by rw [hb, h]⟩

/-- The errors of the JPEG loop: a read or a skip that met the end of the
file. -/
theorem jpegBody_fail (s : Bool × List Byte) (m : String) (h : jpegBody s = .fail m) :
    m = "reading marker start or entropy-coded data: EOF" ∨
      m = "reading marker size: EOF" ∨ m = "reading marker size: unexpected EOF" ∨
      m = "skipping marker data: EOF" := by
  obtain ⟨ms, r⟩ := s
  cases r with
  | nil =>
    simp only [jpegBody, readByte, Step.fail.injEq] at h
    exact Or.inl h.symm
  | cons b t =>
    simp only [jpegBody, readByte] at h
    split_ifs at h
    cases hrf : readFull 2 t with
    | error e =>
      rw [hrf] at h
      simp only [Step.fail.injEq] at h
      rcases readFull_error hrf with rfl | rfl
      · exact Or.inr (Or.inl h.symm)
      · exact Or.inr (Or.inr (Or.inl h.symm))
    | ok v =>
      obtain ⟨buf, q⟩ := v
      rw [hrf] at h
      simp only at h
      cases hd : discard (beUint16 buf) q with
      | error e =>
        rw [hd] at h
        simp only [Step.fail.injEq] at h
        obtain rfl := discard_error hd
        exact Or.inr (Or.inr (Or.inr h.symm))
      | ok q' => rw [hd] at h; exact Step.noConfusion h

/-- C16: when the JPEG walk stops, the file holds the adjacent pair `FF D9`
right before the bytes left unread; and on a file that nowhere holds `FF`
immediately followed by `D9` the JPEG walker returns an error, that of a read
or of a skip that met the end of the file. -/
theorem jpeg_accepts_only_after_eoi (f : File) :
    (∀ r, jpegWalk f = .stop r → ∃ pre, f.data = pre ++ 0xFF :: 0xD9 :: r) ∧
    ((¬ ∃ pre post, f.data = pre ++ 0xFF :: 0xD9 :: post) →
      ∃ m, jpegWalk f = .fail m ∧ checkJpeg f = .error m ∧
        (m = "reading marker start or entropy-coded data: EOF" ∨
          m = "reading marker size: EOF" ∨ m = "reading marker size: unexpected EOF" ∨
          m = "skipping marker data: EOF")) := by
  have hstop : ∀ r, jpegWalk f = .stop r → ∃ pre, f.data = pre ++ 0xFF :: 0xD9 :: r := by
    intro r hr
    rw [jpegWalk_eq] at hr
    rcases jpeg_stop_after_eoi _ false f.data r hr with hpre | ⟨hms, -⟩
    · exact hpre
    · exact Bool.noConfusion hms
  refine ⟨hstop, fun hno => ?_⟩
  cases hw : jpegWalk f with
  | stop r =>
    obtain ⟨pre, hpre⟩ := hstop r hw
    exact absurd ⟨pre, r, hpre⟩ hno
  | fail m =>
    refine ⟨m, rfl, by simp [checkJpeg, hw, Walk.toResult], ?_⟩
    rw [jpegWalk_eq] at hw
    obtain ⟨s', hs'⟩ := loop_fail_step jpegBody _ _ m hw
    exact jpegBody_fail s' m hs'
  | unfinished => exact absurd hw (jpegWalk_ne_unfinished f)

/-- C16, at the file `FF D8 01`, which holds no `FF D9`. -/
theorem jpeg_accepts_only_after_eoi_witness :
    ∃ m, jpegWalk ⟨"a.jpg", [0xFF, 0xD8, 0x01]⟩ = .fail m ∧
      checkJpeg ⟨"a.jpg", [0xFF, 0xD8, 0x01]⟩ = .error m ∧
      (m = "reading marker start or entropy-coded data: EOF" ∨
        m = "reading marker size: EOF" ∨ m = "reading marker size: unexpected EOF" ∨
        m = "skipping marker data: EOF") :=
  (jpeg_accepts_only_after_eoi ⟨"a.jpg", [0xFF, 0xD8, 0x01]⟩).2 (by
    rintro ⟨pre, post, h⟩
    rcases pre with _ | ⟨a, _ | ⟨b, _ | ⟨c, pre⟩⟩⟩ <;> simp at h)

/-! ## Termination -/

theorem loop_enough {σ : Type} (body : σ → Step σ) (μ : σ → Nat)
    (hdec : ∀ s s', body s = .next s' → μ s' < μ s) (s : σ) (k : Nat) (hk : μ s + 1 ≤ k) :
    loop body k s = loop body (μ s + 1) s ∧ loop body k s ≠ .unfinished := by
  have h := loop_total body μ hdec (μ s + 1) s (Nat.lt_succ_self _)
  have e := loop_fuel_le body (μ s + 1) k s h hk
  exact ⟨e, by rw [e]; exact h⟩

theorem toResult_ne_unfinished {w : Walk} (h : w ≠ .unfinished) :
    w.toResult ≠ .unfinished := by
  cases w with
  | stop r => simp [Walk.toResult]
  | fail m => simp [Walk.toResult]
  | unfinished => exact absurd rfl h

theorem wrap_ne_unfinished {c : String} {x : Result} (h : x ≠ .unfinished) :
    wrap c x ≠ .unfinished := by
  cases x with
  | nil => simp [wrap]
  | error m => simp [wrap]
  | unfinished => exact absurd rfl h

theorem pngWalk_ne_unfinished (f : File) : pngWalk f ≠ .unfinished := by
  rw [pngWalk_eq]
  exact loop_total pngBody (fun s => s.length) pngBody_decreases _ _ (Nat.lt_succ_self _)

theorem gifWalk_ne_unfinished (f : File) : gifWalk f ≠ .unfinished := by
  rw [gifWalk_eq]
  split
  · simp
  · split
    · simp
    · exact loop_total (gifBody _) (fun s : GifState => s.rest.length) (gifBody_decreases _) _
        (GifState.block _) (Nat.lt_succ_self _)

theorem checkJpeg_ne_unfinished (f : File) : checkJpeg f ≠ .unfinished :=
  toResult_ne_unfinished (jpegWalk_ne_unfinished f)

theorem checkPng_ne_unfinished (f : File) : checkPng f ≠ .unfinished := by
  unfold checkPng
  split
  · simp
  · split
    · simp
    · split
      · simp
      · exact toResult_ne_unfinished (pngWalk_ne_unfinished f)

theorem checkGif_ne_unfinished (f : File) : checkGif f ≠ .unfinished := by
  unfold checkGif
  split
  · simp
  · split
    · simp
    · split
      · simp
      · exact toResult_ne_unfinished (gifWalk_ne_unfinished f)

theorem ite_ne_unfinished {c : Prop} [Decidable c] {a b : Result} (ha : a ≠ .unfinished)
    (hb : b ≠ .unfinished) : (if c then a else b) ≠ .unfinished := by
  split <;> assumption

theorem inflate_ne_unfinished (out : Inflate) (c1 c2 c3 : String) (size : Nat) :
    (match out with
      | .headerError e => Result.error (c1 ++ e)
      | .streamError e => Result.error (c2 ++ e)
      | .bytes n => if n + 8 < size then Result.error c3 else Result.nil) ≠ .unfinished := by
  cases out with
  | headerError e => simp
  | streamError e => simp
  | bytes n => exact ite_ne_unfinished (by simp) (by simp)

theorem checkSwf_ne_unfinished (cd : Codecs) (f : File) : checkSwf cd f ≠ .unfinished := by
  unfold checkSwf
  split
  · simp
  · split
    · simp
    · split
      · simp
      · split
        · simp
        · refine ite_ne_unfinished ?_ (ite_ne_unfinished (inflate_ne_unfinished _ _ _ _ _)
            (ite_ne_unfinished (inflate_ne_unfinished _ _ _ _ _) (by simp)))
          split
          · simp
          · exact ite_ne_unfinished (by simp) (by simp)

theorem checkFile_ne_unfinished (cd : Codecs) (f : File) : checkFile cd f ≠ .unfinished := by
  unfold checkFile
  split
  · simp
  · split
    · exact wrap_ne_unfinished (checkPng_ne_unfinished f)
    · split
      · exact wrap_ne_unfinished (checkGif_ne_unfinished f)
      · split
        · exact wrap_ne_unfinished (checkJpeg_ne_unfinished f)
        · split
          · exact wrap_ne_unfinished (checkSwf_ne_unfinished cd f)
          · simp

/-- C19: every iteration of the JPEG loop, of the PNG chunk loop and of the
GIF block and sub-block loops that does not return leaves fewer bytes in the
reader; hence a loop started with `r` bytes left returns within `r + 1`
iterations (a larger budget gives the same result), the three walks over a
file return, and `Check` returns `nil` or an error on every file. -/
theorem walkers_terminate (cd : Codecs) (f : File) :
    (∀ s s', jpegBody s = .next s' → s'.2.length < s.2.length) ∧
    (∀ s s', pngBody s = .next s' → s'.length < s.length) ∧
    (∀ p s s', gifBody p s = .next s' → s'.rest.length < s.rest.length) ∧
    (∀ (s : Bool × List Byte) (k : Nat), s.2.length + 1 ≤ k →
      loop jpegBody k s = loop jpegBody (s.2.length + 1) s ∧
        loop jpegBody k s ≠ .unfinished) ∧
    (∀ (s : List Byte) (k : Nat), s.length + 1 ≤ k →
      loop pngBody k s = loop pngBody (s.length + 1) s ∧ loop pngBody k s ≠ .unfinished) ∧
    (∀ (p : Byte) (s : GifState) (k : Nat), s.rest.length + 1 ≤ k →
      loop (gifBody p) k s = loop (gifBody p) (s.rest.length + 1) s ∧
        loop (gifBody p) k s ≠ .unfinished) ∧
    (jpegWalk f ≠ .unfinished ∧ pngWalk f ≠ .unfinished ∧ gifWalk f ≠ .unfinished) ∧
    (Check cd f = .nil ∨ ∃ m, Check cd f = .error m) := by
  refine ⟨jpegBody_decreases, pngBody_decreases, gifBody_decreases,
    fun s k hk => loop_enough jpegBody (fun s => s.2.length) jpegBody_decreases s k hk,
    fun s k hk => loop_enough pngBody (fun s => s.length) pngBody_decreases s k hk,
    fun p s k hk =>
      loop_enough (gifBody p) (fun s => s.rest.length) (gifBody_decreases p) s k hk,
    ⟨jpegWalk_ne_unfinished f, pngWalk_ne_unfinished f, gifWalk_ne_unfinished f⟩, ?_⟩
  unfold Check
  cases hc : checkFile cd f with
  | nil => exact Or.inl rfl
  | error m => exact Or.inr ⟨m, rfl⟩
  | unfinished => exact absurd hc (checkFile_ne_unfinished cd f)

/-- C19, at the GIF sub-block loop on the three bytes `02 4C 01`: the
iteration that goes round again leaves no byte, and a budget of 10 iterations
gives what a budget of 4 gives. -/
theorem walkers_terminate_witness :
    (GifState.subBlock []).rest.length < (GifState.subBlock [0x02, 0x4C, 0x01]).rest.length ∧
      (loop (gifBody 0) 10 (.subBlock [0x02, 0x4C, 0x01]) =
          loop (gifBody 0) ((GifState.subBlock [0x02, 0x4C, 0x01]).rest.length + 1)
            (.subBlock [0x02, 0x4C, 0x01]) ∧
        loop (gifBody 0) 10 (.subBlock [0x02, 0x4C, 0x01]) ≠ .unfinished) :=
  ⟨(walkers_terminate noCodec ⟨"a.gif", []⟩).2.2.1 0 (.subBlock [0x02, 0x4C, 0x01])
      (.subBlock []) (by decide),
    (walkers_terminate noCodec ⟨"a.gif", []⟩).2.2.2.2.2.1 0 (.subBlock [0x02, 0x4C, 0x01]) 10
      (by decide)⟩

/-! ## PNG: acceptance is the trailer plus a chunk walk that reaches `IEND` -/

/-- The value of `binary.BigEndian.Uint32` on four bytes. -/
theorem beUint32_eq (b0 b1 b2 b3 : Byte) :
    beUint32 [b0, b1, b2, b3] = bigEndian32 b0 b1 b2 b3 := by
  simp only [beUint32, at_, List.getD_cons_zero, List.getD_cons_succ, bigEndian32]
  rw [lor_shift_eq _ _ _ _ b3.isLt b2.isLt b1.isLt]
  omega

theorem pngBody_cons (l0 l1 l2 l3 t0 t1 t2 t3 : Byte) (tail : List Byte) :
    pngBody (l0 :: l1 :: l2 :: l3 :: t0 :: t1 :: t2 :: t3 :: tail) =
      if [t0, t1, t2, t3] = iend then
        match discard 4 tail with
        | .error e => .fail ("skipping IEND block: " ++ e)
        | .ok r => .stop r
      else
        match discard (4 + bigEndian32 l0 l1 l2 l3) tail with
        | .error e => .fail ("skipping block data: " ++ e)
        | .ok r => .next r := by
  have h1 : readFull 4 (l0 :: l1 :: l2 :: l3 :: t0 :: t1 :: t2 :: t3 :: tail) =
      .ok ([l0, l1, l2, l3], t0 :: t1 :: t2 :: t3 :: tail) := by
    simp [readFull]
  have h2 : readFull 4 (t0 :: t1 :: t2 :: t3 :: tail) = .ok ([t0, t1, t2, t3], tail) := by
    simp [readFull]
  simp only [pngBody, h1, h2, beUint32_eq]

theorem pngBody_short (r : List Byte) (h : r.length < 8) : ∃ m, pngBody r = .fail m := by
  unfold pngBody
  cases h1 : readFull 4 r with
  | error e => exact ⟨_, rfl⟩
  | ok v =>
    obtain ⟨buf, q⟩ := v
    obtain ⟨hle, -, rfl⟩ := readFull_ok h1
    obtain ⟨e, he⟩ := readFull_of_lt (n := 4) (p := r.drop 4)
      (by rw [List.length_drop]; omega)
    simp only [he]
    exact ⟨_, rfl⟩

theorem eight_of_length {r : List Byte} (h : 8 ≤ r.length) :
    ∃ l0 l1 l2 l3 t0 t1 t2 t3 tail, r = l0 :: l1 :: l2 :: l3 :: t0 :: t1 :: t2 :: t3 :: tail := by
  rcases r with _ | ⟨l0, _ | ⟨l1, _ | ⟨l2, _ | ⟨l3, _ | ⟨t0, _ | ⟨t1, _ | ⟨t2, _ | ⟨t3, tail⟩⟩⟩⟩⟩⟩⟩⟩
  all_goals first
    | (simp at h; done)
    | exact ⟨_, _, _, _, _, _, _, _, _, rfl⟩

/-- A chunk loop that stops started on bytes from which the walk of the claim
reaches an `IEND` header. -/
theorem reaches_of_stop :
    ∀ (n : Nat) (r q : List Byte), loop pngBody n r = .stop q → ReachesIend r := by
  intro n
  induction n with
  | zero => intro r q h; exact Walk.noConfusion h
  | succ n ih =>
    intro r q h
    by_cases hlen : r.length < 8
    · obtain ⟨m, hm⟩ := pngBody_short r hlen
      simp [loop, hm] at h
    · obtain ⟨l0, l1, l2, l3, t0, t1, t2, t3, tail, rfl⟩ := eight_of_length (by omega : 8 ≤ r.length)
      simp only [loop, pngBody_cons] at h
      by_cases hi : [t0, t1, t2, t3] = iend
      · rw [if_pos hi] at h
        cases hd : discard 4 tail with
        | error e => rw [hd] at h; exact Walk.noConfusion h
        | ok r' =>
          simp only [iend, List.cons.injEq, and_true] at hi
          obtain ⟨rfl, rfl, rfl, rfl⟩ := hi
          exact .found l0 l1 l2 l3 tail (discard_ok hd).1
      · rw [if_neg hi] at h
        cases hd : discard (4 + bigEndian32 l0 l1 l2 l3) tail with
        | error e => rw [hd] at h; exact Walk.noConfusion h
        | ok r' =>
          rw [hd] at h
          simp only at h
          obtain ⟨hle, rfl⟩ := discard_ok hd
          refine .skip l0 l1 l2 l3 t0 t1 t2 t3 tail hi (by omega) ?_
          rw [Nat.add_comm]
          exact ih _ q h

/-- The chunk loop stops on bytes from which the walk of the claim reaches an
`IEND` header. -/
theorem stop_of_reaches {r : List Byte} (h : ReachesIend r) :
    ∃ q, loop pngBody (r.length + 1) r = .stop q := by
  induction h with
  | found l0 l1 l2 l3 tail hlen =>
    have hd : discard 4 tail = .ok (tail.drop 4) := by simp [discard, hlen]
    refine ⟨tail.drop 4, ?_⟩
    simp only [loop, pngBody_cons]
    rw [if_pos (by rfl), hd]
  | skip l0 l1 l2 l3 t0 t1 t2 t3 tail hi hlen _ ih =>
    obtain ⟨q, hq⟩ := ih
    have hle : 4 + bigEndian32 l0 l1 l2 l3 ≤ tail.length := by omega
    have hd : discard (4 + bigEndian32 l0 l1 l2 l3) tail =
        .ok (tail.drop (bigEndian32 l0 l1 l2 l3 + 4)) := by
      rw [Nat.add_comm 4]
      simp [discard, hlen]
    have hb : pngBody (l0 :: l1 :: l2 :: l3 :: t0 :: t1 :: t2 :: t3 :: tail) =
        .next (tail.drop (bigEndian32 l0 l1 l2 l3 + 4)) := by
      rw [pngBody_cons, if_neg hi, hd]
    refine ⟨q, ?_⟩
    rw [loop_next hb, loop_fuel_le pngBody _ _ _ (by rw [hq]; simp)
      (by simp only [List.length_drop, List.length_cons]; omega), hq]

theorem ends_with_iff (d e : List Byte) (h : e.length ≤ d.length) :
    d.drop (d.length - e.length) = e ↔ ∃ pre, d = pre ++ e := by
  constructor
  · intro hd
    refine ⟨d.take (d.length - e.length), ?_⟩
    conv_lhs => rw [← List.take_append_drop (d.length - e.length) d]
    rw [hd]
  · rintro ⟨pre, rfl⟩
    have hl : (pre ++ e).length - e.length = pre.length := by
      rw [List.length_append]; omega
    rw [hl, List.drop_left]

/-- C12: on a file of at least 8 bytes that starts with the PNG signature,
`Check` succeeds exactly when the file ends with the 12 bytes `00 00 00 00 49
45 4E 44 AE 42 60 82` and the chunk walk from offset 8 reaches a chunk header
of type `IEND` followed by at least 4 bytes, the reads and skips before it
all satisfied by the file and the length field of that header ignored. -/
theorem png_accepted_iff (cd : Codecs) (f : File) (h8 : 8 ≤ f.data.length)
    (hs : f.data.take 8 = pngSignature) :
    Check cd f = .nil ↔
      (∃ pre, f.data = pre ++ endSignature) ∧ ReachesIend (f.data.drop 8) := by
  have hsig : pngSignature.isPrefixOf (f.data.take 8) = true := by
    rw [isPrefixOf_iff_take, List.take_take]
    exact hs
  have hwalk : (pngWalk f).toResult = .nil ↔ ReachesIend (f.data.drop 8) := by
    rw [pngWalk_eq]
    constructor
    · intro h
      obtain ⟨q, hq⟩ := toResult_eq_nil h
      exact reaches_of_stop _ _ q hq
    · intro h
      obtain ⟨q, hq⟩ := stop_of_reaches h
      rw [hq]
      rfl
  unfold Check
  rw [checkFile_png cd f h8 hsig, wrap_eq_nil_iff]
  by_cases h12 : 12 ≤ f.data.length
  · have hends := ends_with_iff f.data endSignature h12
    have hl : endSignature.length = 12 := rfl
    rw [hl] at hends
    rw [checkPng_eq f h12]
    by_cases he : f.data.drop (f.data.length - 12) = endSignature
    · rw [if_pos he, hwalk]
      exact ⟨fun h => ⟨hends.1 he, h⟩, fun h => h.2⟩
    · rw [if_neg he]
      exact ⟨fun h => Result.noConfusion h, fun h => absurd (hends.2 h.1) he⟩
  · constructor
    · intro h
      exact absurd (length_of_checkPng_nil f h) h12
    · rintro ⟨⟨pre, hpre⟩, -⟩
      have := congrArg List.length hpre
      rw [List.length_append] at this
      have hl : endSignature.length = 12 := rfl
      omega

/-- C12, at the 20-byte PNG: its chunk walk finds `IEND` at offset 8. -/
theorem png_accepted_iff_witness :
    Check noCodec ⟨"a.png", pngSignature ++ endSignature⟩ = .nil ↔
      (∃ pre, pngSignature ++ endSignature = pre ++ endSignature) ∧
        ReachesIend ((pngSignature ++ endSignature).drop 8) :=
  png_accepted_iff noCodec ⟨"a.png", pngSignature ++ endSignature⟩ (by decide) (by decide)

/-! ## GIF: where the block loop starts -/

set_option maxRecDepth 100000 in
/-- The header byte at offset 10, the two bytes after it and the global color
table the source computes end at the offset of the claim. -/
theorem header_skip_eq : ∀ p : Byte, 11 + (2 + colorTable p 0b111) = firstBlockOffset p := by
  decide

theorem gifWalk_header (f : File) (p : Byte) (hp : f.data[10]? = some p) :
    gifWalk f =
      match discard (2 + colorTable p 0b111) (f.data.drop 11) with
      | .error e => .fail ("skipping header: " ++ e)
      | .ok r => loop (gifBody p) (r.length + 1) (.block r) := by
  obtain ⟨h10, hget⟩ := List.getElem?_eq_some_iff.1 hp
  have hd : f.data.drop 10 = p :: f.data.drop 11 := by
    rw [List.drop_eq_getElem_cons h10, hget]
  have hr : readFull 1 (f.data.drop 10) = .ok ([p], f.data.drop 11) := by
    rw [hd]
    simp [readFull]
  rw [gifWalk_eq, hr]
  rfl

/-- C15, the last part of the claim fails: on this 12-byte file, whose packed
byte at offset 10 is `00`, the skip of 2 bytes runs past the end of the file,
but `Check` has failed before on the last byte, which is not `0x3B`. -/
theorem short_gif_header_other_error :
    ([0x47, 0x49, 0x46, 0x38, 0x39, 0x61, 1, 0, 1, 0, 0x00, 0] : List Byte)[10]? = some 0x00 ∧
      ([0x47, 0x49, 0x46, 0x38, 0x39, 0x61, 1, 0, 1, 0, 0x00, 0] : List Byte).length <
        firstBlockOffset 0x00 ∧
      Check noCodec ⟨"a.gif", [0x47, 0x49, 0x46, 0x38, 0x39, 0x61, 1, 0, 1, 0, 0x00, 0]⟩ =
        .error "GIF file: file does not end with GIF trailer" := by
  decide

/-- C15 as amended: with `p` the byte at offset 10, the block loop of the GIF
walk starts with the reader at offset `13 + 3 * 2^((p & 0b111) + 1)` when bit
7 of `p` is set and at offset 13 when it is clear; when the file is shorter
than that offset the walk fails with `skipping header: EOF`, and `Check`
fails with `GIF file: skipping header: EOF` provided the file starts with the
GIF signature and ends with `0x3B`. -/
theorem gif_first_block_offset (cd : Codecs) (f : File) (p : Byte)
    (hp : f.data[10]? = some p) :
    (firstBlockOffset p ≤ f.data.length →
      gifWalk f =
        loop (gifBody p) ((f.data.drop (firstBlockOffset p)).length + 1)
          (.block (f.data.drop (firstBlockOffset p)))) ∧
    (f.data.length < firstBlockOffset p →
      gifWalk f = .fail "skipping header: EOF" ∧
      (gifSignature.isPrefixOf (f.data.take 8) = true → f.data.getLast? = some 0x3B →
        Check cd f = .error "GIF file: skipping header: EOF")) := by
  obtain ⟨h10, -⟩ := List.getElem?_eq_some_iff.1 hp
  have hoff := header_skip_eq p
  have hw := gifWalk_header f p hp
  constructor
  · intro hle
    have hd : discard (2 + colorTable p 0b111) (f.data.drop 11) =
        .ok (f.data.drop (firstBlockOffset p)) := by
      have hle' : 2 + colorTable p 0b111 ≤ (f.data.drop 11).length := by
        rw [List.length_drop]; omega
      simp only [discard, if_pos hle', List.drop_drop, hoff]
    rw [hw, hd]
  · intro hlt
    have hd : discard (2 + colorTable p 0b111) (f.data.drop 11) = .error "EOF" :=
      discard_of_lt (by rw [List.length_drop]; omega)
    have hfail : gifWalk f = .fail "skipping header: EOF" := by
      rw [hw, hd]
      rfl
    refine ⟨hfail, fun hs hlast => ?_⟩
    unfold Check
    rw [checkFile_gif cd f (by omega) hs, checkGif_eq f (by omega), if_pos hlast, hfail]
    rfl

/-- C15 as amended, at the 14-byte GIF whose packed byte `80` announces a
global color table of 6 bytes: the file ends before offset 19. -/
theorem gif_first_block_offset_witness :
    gifWalk ⟨"a.gif", [0x47, 0x49, 0x46, 0x38, 0x39, 0x61, 1, 0, 1, 0, 0x80, 0, 0, 0x3B]⟩ =
        .fail "skipping header: EOF" ∧
      Check noCodec
          ⟨"a.gif", [0x47, 0x49, 0x46, 0x38, 0x39, 0x61, 1, 0, 1, 0, 0x80, 0, 0, 0x3B]⟩ =
        .error "GIF file: skipping header: EOF" :=
  ⟨((gif_first_block_offset noCodec
      ⟨"a.gif", [0x47, 0x49, 0x46, 0x38, 0x39, 0x61, 1, 0, 1, 0, 0x80, 0, 0, 0x3B]⟩ 0x80
      (by decide)).2 (by decide)).1,
    ((gif_first_block_offset noCodec
      ⟨"a.gif", [0x47, 0x49, 0x46, 0x38, 0x39, 0x61, 1, 0, 1, 0, 0x80, 0, 0, 0x3B]⟩ 0x80
      (by decide)).2 (by decide)).2 (by decide) (by decide)⟩

end ImageCheck
